import Mathlib

/-!
The bootkube status controller (`pkg/bootkube/status.go`)

A shallow embedding of the readiness predicate of the status controller and of
the two snapshot builders it relies on.

* Go maps (`map[string]V`) are association lists with distinct keys
  (`GoMap`); `range` over a map visits the entries in the stored order, which
  is one of the orders Go may choose.
* `cache.Store` is an interface: the pod store is given by what `ListKeys` and
  `GetByKey` answer, the node store by what `List` answers.  No relation
  between `ListKeys` and `GetByKey` is built in.
* Every method takes the controller and returns its result together with the
  controller after the call and the list of effects performed in order
  (store reads, `UserOutput` calls, `glog` calls).
-/

namespace bootkube

/-! ## Kubernetes API types, restricted to the fields the controller reads -/

/-- Go `error` values, identified by their message. -/
abbrev Error := String

namespace corev1

/-- Phase of a pod, `type PodPhase string`. -/
abbrev PodPhase := String

/-- Constant `corev1.PodRunning`. -/
def PodRunning : PodPhase := "Running"

/-- Status of a condition, `type ConditionStatus string`. -/
abbrev ConditionStatus := String

/-- Constant `corev1.ConditionTrue`. -/
def ConditionTrue : ConditionStatus := "True"

/-- Type of a node condition, `type NodeConditionType string`. -/
abbrev NodeConditionType := String

/-- Constant `corev1.NodeReady`. -/
def NodeReady : NodeConditionType := "Ready"

/-- Struct `corev1.NodeCondition`; a time is kept as one number, two times being
`reflect.DeepEqual` exactly when their numbers are equal. -/
structure NodeCondition where
  «Type» : NodeConditionType
  Status : ConditionStatus
  LastHeartbeatTime : Int
  LastTransitionTime : Int
  Reason : String
  Message : String
  deriving DecidableEq, Repr

/-- Struct `corev1.PodStatus`, field `Phase`. -/
structure PodStatus where
  Phase : PodPhase
  deriving DecidableEq, Repr

/-- Struct `corev1.Pod`, fields `Name` and `Status`. -/
structure Pod where
  Name : String
  Status : PodStatus
  deriving DecidableEq, Repr

/-- Struct `corev1.NodeStatus`, field `Conditions`. -/
structure NodeStatus where
  Conditions : List NodeCondition
  deriving DecidableEq, Repr

/-- Struct `corev1.Node`, fields `Name` and `Status`. -/
structure Node where
  Name : String
  Status : NodeStatus
  deriving DecidableEq, Repr

end corev1

/-- Sentinel phase recorded for a watched pod that is not in the store. -/
def doesNotExist : corev1.PodPhase := "DoesNotExist"

/-- Function `strings.HasPrefix s pre`: `s` begins with `pre`.  Go compares bytes; on
well-formed UTF-8 text that is the same as comparing characters. -/
def strings.HasPrefix (s pre : String) : Bool :=
  pre.data.isPrefixOf s.data

/-! ## Go maps with string keys -/

/-- Insert or overwrite the binding of `k` in an association list. -/
def assocSet {V : Type} (k : String) (v : V) : List (String × V) → List (String × V)
  | [] => [(k, v)]
  | (k1, v1) :: rest => if k1 = k then (k, v) :: rest else (k1, v1) :: assocSet k v rest

/-- Value bound to `k` in an association list. -/
def assocGet {V : Type} (k : String) : List (String × V) → Option V
  | [] => none
  | (k1, v1) :: rest => if k1 = k then some v1 else assocGet k rest

theorem assocSet_keys_nodup {V : Type} (k : String) (v : V) (l : List (String × V))
    (h : (l.map Prod.fst).Nodup) : ((assocSet k v l).map Prod.fst).Nodup ∧
      ∀ x, x ∈ (assocSet k v l).map Prod.fst → x = k ∨ x ∈ l.map Prod.fst := by
  induction l with
  | nil => simp [assocSet]
  | cons hd tl ih =>
    obtain ⟨k1, v1⟩ := hd
    simp only [List.map_cons, List.nodup_cons] at h
    by_cases hk : k1 = k
    · subst hk
      simp only [assocSet, if_true, List.map_cons, List.nodup_cons]
      refine ⟨⟨h.1, h.2⟩, ?_⟩
      intro x hx
      right
      simpa using hx
    · simp only [assocSet, hk, if_false, List.map_cons, List.nodup_cons]
      obtain ⟨ih1, ih2⟩ := ih h.2
      refine ⟨⟨?_, ih1⟩, ?_⟩
      · intro hmem
        rcases ih2 k1 hmem with h1 | h1
        · exact hk h1
        · exact h.1 h1
      · intro x hx
        rcases List.mem_cons.mp hx with h1 | h1
        · right
          simp [h1]
        · rcases ih2 x h1 with h2 | h2
          · left
            exact h2
          · right
            simp [h2]

/-- A non-nil Go map `map[string]V`: bindings with pairwise distinct keys. -/
structure GoMap (V : Type) where
  entries : List (String × V)
  nodup : (entries.map Prod.fst).Nodup

namespace GoMap

variable {V : Type}

/-- Expression `make(map[string]V)`. -/
def make : GoMap V := ⟨[], List.nodup_nil⟩

/-- Statement `m[k] = v`. -/
def set (m : GoMap V) (k : String) (v : V) : GoMap V :=
  ⟨assocSet k v m.entries, (assocSet_keys_nodup k v m.entries m.nodup).1⟩

/-- Expression `m[k]` with its presence flag. -/
def get? (m : GoMap V) (k : String) : Option V := assocGet k m.entries

/-- Expression `len(m)`. -/
def len (m : GoMap V) : Nat := m.entries.length

/-- Function `reflect.DeepEqual` on two non-nil maps: equal lengths, and every key
of the first is bound in the second to an equal value. -/
def deepEqual [DecidableEq V] (m1 m2 : GoMap V) : Bool :=
  decide (m1.len = m2.len) &&
    m1.entries.all (fun kv => decide (m2.get? kv.1 = some kv.2))

end GoMap

/-- Function `reflect.DeepEqual` on two maps either of which may be nil (`none`):
a nil map equals only a nil map. -/
def DeepEqual {V : Type} [DecidableEq V] : Option (GoMap V) → Option (GoMap V) → Bool
  | none, none => true
  | some m1, some m2 => m1.deepEqual m2
  | _, _ => false

/-! ## Stores -/

/-- Dynamic values held in a `cache.Store` (`interface{}`). -/
inductive Obj where
  | nil
  | pod (p : corev1.Pod)
  | node (n : corev1.Node)
  | other (tag : String)
  deriving DecidableEq, Repr

/-- What `GetByKey` returns: `(item interface{}, exists bool, err error)`. -/
structure GetResult where
  item : Obj
  «exists» : Bool
  err : Option Error
  deriving DecidableEq, Repr

/-- The methods of `cache.Store` called on `podStore`. -/
structure PodStore where
  ListKeys : List String
  GetByKey : String → GetResult

/-- The method of `cache.Store` called on `nodeStore`.  `NodeStatus` asserts
`node.(*corev1.Node)` on every element without a check, so the elements are nodes. -/
structure NodeStore where
  List : List corev1.Node

/-! ## Effects -/

/-- Effects a method performs, in the order it performs them. -/
inductive Event where
  /-- Call `s.podStore.ListKeys()`. -/
  | podStoreListKeys
  /-- Call `s.podStore.GetByKey(key)`. -/
  | podStoreGetByKey (key : String)
  /-- Call `s.nodeStore.List()`. -/
  | nodeStoreList
  /-- Call `UserOutput("\tPod Status:%24s\t%s\n", p, s)`. -/
  | podReport (p : String) (s : corev1.PodPhase)
  /-- Call `UserOutput("\tNode Conditions:%24s\t%s\n", node, condition)`. -/
  | nodeReport (node : String) (condition : corev1.NodeCondition)
  /-- Call `glog.Infof(format, err)` or `glog.Info(format, err)`. -/
  | glogInfo (format : String) (err : Error)
  deriving DecidableEq, Repr

/-- A `UserOutput` call, that is, a report line. -/
def Event.isReport : Event → Bool
  | .podReport _ _ => true
  | .nodeReport _ _ => true
  | _ => false

/-- A report line about a pod. -/
def Event.isPodReport : Event → Bool
  | .podReport _ _ => true
  | _ => false

/-- A report line about a node. -/
def Event.isNodeReport : Event → Bool
  | .nodeReport _ _ => true
  | _ => false

/-- A read of the node store. -/
def Event.isNodeStoreRead : Event → Bool
  | .nodeStoreList => true
  | _ => false

/-! ## The controller -/

/-- Struct `statusController` (the `client` field is not read by the methods below). -/
structure statusController where
  podStore : PodStore
  nodeStore : NodeStore
  watchPods : List String
  lastPodPhases : Option (GoMap corev1.PodPhase)
  lastNodeConditions : Option (GoMap corev1.NodeCondition)

/-- Result of a method call: returned value, receiver after the call, effects. -/
structure Ret (α : Type) where
  val : α
  s : statusController
  events : List Event

namespace statusController

/-- Inner loop of `PodStatus`: the first key of `podNames` that has `watchedPod` as a
prefix replaces `watchedPod`; without such a key `watchedPod` stays as it is. -/
def resolve : List String → String → String
  | [], watchedPod => watchedPod
  | pn :: rest, watchedPod =>
    if strings.HasPrefix pn watchedPod then pn else resolve rest watchedPod

/-- Outer loop of `PodStatus` over the remaining watched names. -/
def PodStatus.loop (podStore : PodStore) (podNames : List String) :
    List String → GoMap corev1.PodPhase →
      Except Error (GoMap corev1.PodPhase) × List Event
  | [], status => (.ok status, [])
  | watchedPod :: rest, status =>
    let watchedPod := resolve podNames watchedPod
    let r := podStore.GetByKey watchedPod
    match r.err with
    | some err => (.error err, [Event.podStoreGetByKey watchedPod])
    | none =>
      let status :=
        if !r.«exists» then status.set watchedPod doesNotExist
        else
          match r.item with
          | .pod p => status.set watchedPod p.Status.Phase
          | _ => status
      let out := PodStatus.loop podStore podNames rest status
      (out.1, Event.podStoreGetByKey watchedPod :: out.2)

/-- Method `PodStatus`: `.error err` stands for `(nil, err)`, `.ok status` for `(status, nil)`. -/
def PodStatus (s : statusController) : Ret (Except Error (GoMap corev1.PodPhase)) :=
  let status : GoMap corev1.PodPhase := GoMap.make
  let podNames := s.podStore.ListKeys
  let out := PodStatus.loop s.podStore podNames s.watchPods status
  ⟨out.1, s, Event.podStoreListKeys :: out.2⟩

/-- The entry `PodStatus` records for a resolved key, as a function of what `GetByKey`
answers for it: the sentinel when the key is absent, the phase when a pod is stored, and
no entry when the stored object is not a pod. -/
def PodStatus.entry (podStore : PodStore) (key : String) : Option corev1.PodPhase :=
  let r := podStore.GetByKey key
  if !r.«exists» then some doesNotExist
  else
    match r.item with
    | .pod p => some p.Status.Phase
    | _ => none

/-- No lookup that `PodStatus` makes for the given watched names fails. -/
def lookupsOk (podStore : PodStore) (podNames watched : List String) : Prop :=
  ∀ w ∈ watched, (podStore.GetByKey (resolve podNames w)).err = none

/-- Key `k` is what the watched name `w` resolves to: the first key of `podNames` that has
`w` as a prefix, or `w` itself when no key has. -/
def ResolvesTo (podNames : List String) (w k : String) : Prop :=
  (∃ before after, podNames = before ++ k :: after ∧ strings.HasPrefix k w = true ∧
      ∀ x ∈ before, strings.HasPrefix x w = false) ∨
    (k = w ∧ ∀ x ∈ podNames, strings.HasPrefix x w = false)

/-- Inner loop of `NodeStatus`: the first condition of type `Ready`, if any. -/
def NodeStatus.firstReady : List corev1.NodeCondition → Option corev1.NodeCondition
  | [] => none
  | condition :: rest =>
    if condition.«Type» = corev1.NodeReady then some condition else NodeStatus.firstReady rest

/-- Outer loop of `NodeStatus` over the listed nodes. -/
def NodeStatus.loop : List corev1.Node → GoMap corev1.NodeCondition → GoMap corev1.NodeCondition
  | [], status => status
  | node :: rest, status =>
    match NodeStatus.firstReady node.Status.Conditions with
    | some condition => NodeStatus.loop rest (status.set node.Name condition)
    | none => NodeStatus.loop rest status

/-- Method `NodeStatus`; it always returns `(status, nil)`. -/
def NodeStatus (s : statusController) : Ret (Except Error (GoMap corev1.NodeCondition)) :=
  let status : GoMap corev1.NodeCondition := GoMap.make
  ⟨.ok (NodeStatus.loop s.nodeStore.List status), s, [Event.nodeStoreList]⟩

/-- The `range ps` loop of `allPodsRunning`. -/
def allPodsRunning.range (changed : Bool) :
    List (String × corev1.PodPhase) → Bool → Bool × List Event
  | [], running => (running, [])
  | (p, s) :: rest, running =>
    let out := if changed then [Event.podReport p s] else []
    let running := if s ≠ corev1.PodRunning then false else running
    let r := allPodsRunning.range changed rest running
    (r.1, out ++ r.2)

/-- Method `allPodsRunning`. -/
def allPodsRunning (s : statusController) : Ret Bool :=
  let r := s.PodStatus
  match r.val with
  | .error err =>
    ⟨false, r.s, r.events ++ [Event.glogInfo "Error retriving pod statuses: %v" err]⟩
  | .ok ps =>
    let s1 : statusController :=
      if r.s.lastPodPhases.isNone then { r.s with lastPodPhases := some ps } else r.s
    let changed := !DeepEqual (some ps) s1.lastPodPhases
    let s2 : statusController := { s1 with lastPodPhases := some ps }
    let out := allPodsRunning.range changed ps.entries true
    ⟨out.1, s2, r.events ++ out.2⟩

/-- The `range ns` loop of `allNodesReady`. -/
def allNodesReady.range (changed : Bool) :
    List (String × corev1.NodeCondition) → Bool → Bool × List Event
  | [], running => (running, [])
  | (node, condition) :: rest, running =>
    let out := if changed then [Event.nodeReport node condition] else []
    let running := if condition.Status ≠ corev1.ConditionTrue then false else running
    let r := allNodesReady.range changed rest running
    (r.1, out ++ r.2)

/-- Method `allNodesReady`. -/
def allNodesReady (s : statusController) : Ret Bool :=
  let r := s.NodeStatus
  match r.val with
  | .error err =>
    ⟨false, r.s, r.events ++ [Event.glogInfo "Error retrieving node conditions: %v" err]⟩
  | .ok ns =>
    let s1 : statusController :=
      if r.s.lastNodeConditions.isNone then { r.s with lastNodeConditions := some ns } else r.s
    let changed := !DeepEqual (some ns) s1.lastNodeConditions
    let s2 : statusController := { s1 with lastNodeConditions := some ns }
    let out := allNodesReady.range changed ns.entries true
    ⟨out.1, s2, r.events ++ out.2⟩

/-- Method `AllRunning`, returning `(running, err)`. -/
def AllRunning (s : statusController) : Ret (Bool × Option Error) :=
  let r1 := s.allPodsRunning
  let podsRunning := r1.val
  let r2 : Ret Bool := if podsRunning then r1.s.allNodesReady else ⟨false, r1.s, []⟩
  let nodesReady := r2.val
  let running := if podsRunning && nodesReady then true else false
  ⟨(running, none), r2.s, r1.events ++ r2.events⟩

end statusController

/-- Condition `c` is the first condition of type `Ready` in the list `l`. -/
def IsFirstReady (l : List corev1.NodeCondition) (c : corev1.NodeCondition) : Prop :=
  ∃ before after, l = before ++ c :: after ∧ c.«Type» = corev1.NodeReady ∧
    ∀ x ∈ before, x.«Type» ≠ corev1.NodeReady

/-- The node has at least one condition of type `Ready`. -/
def hasReady (n : corev1.Node) : Bool :=
  n.Status.Conditions.any (fun c => decide (c.«Type» = corev1.NodeReady))

/-- The lookups of the pod store do not fail: `GetByKey` returns a nil error for every key. -/
def PodStore.lookupsDoNotFail (podStore : PodStore) : Prop :=
  ∀ key, (podStore.GetByKey key).err = none

/-- The pod store holds pods: every object `GetByKey` finds is a `*corev1.Pod`. -/
def PodStore.holdsPods (podStore : PodStore) : Prop :=
  ∀ key, (podStore.GetByKey key).«exists» = true → ∃ p, (podStore.GetByKey key).item = Obj.pod p

/-- The methods `ListKeys` and `GetByKey` agree: `GetByKey` finds an object exactly under
the keys that `ListKeys` lists. -/
def PodStore.agree (podStore : PodStore) : Prop :=
  ∀ key, (podStore.GetByKey key).«exists» = true ↔ key ∈ podStore.ListKeys

/-- No stored pod has the sentinel string itself as its phase. -/
def PodStore.noSentinelPhase (podStore : PodStore) : Prop :=
  ∀ key p, (podStore.GetByKey key).item = Obj.pod p → p.Status.Phase ≠ doesNotExist

/-! ## Waiting for the pods -/

/-- Struct `rest.Config`, which `c.ClientConfig()` returns; only its identity matters. -/
abbrev RestConfig := String

/-- Value of `kubernetes.Interface`, which `kubernetes.NewForConfig` returns. -/
abbrev Clientset := String

/-- The collaborators of `WaitUntilPodsRunning` that live outside `status.go`. -/
structure WaitEnv where
  /-- Call `c.ClientConfig()`. -/
  ClientConfig : Except Error RestConfig
  /-- Call `kubernetes.NewForConfig(config)`. -/
  NewForConfig : RestConfig → Except Error Clientset
  /-- Call `wait.Poll(5*time.Second, timeout, sc.AllRunning)` on the controller with the given
  client and watched names, taken as one step: `none` when it succeeds, or its error. -/
  Poll : Clientset → List String → Option Error

/-- The controller as `NewStatusController` returns it: `client` and `watchPods` are set, the
stores and the remembered snapshots are still nil. -/
structure newStatusController where
  client : Clientset
  watchPods : List String
  deriving DecidableEq, Repr

/-- Function `NewStatusController`. -/
def NewStatusController (env : WaitEnv) (pods : List String) :
    Except Error newStatusController :=
  match env.ClientConfig with
  | .error err => .error err
  | .ok config =>
    match env.NewForConfig config with
    | .error err => .error err
    | .ok client => .ok ⟨client, pods⟩

/-- Effects of `WaitUntilPodsRunning`, in the order it performs them. -/
inductive WaitEvent where
  /-- Call `sc.Run(ctx)`: the pod watcher and the node watcher are started. -/
  | run
  /-- Call `wait.Poll(5*time.Second, timeout, sc.AllRunning)`. -/
  | poll
  /-- Call `UserOutput(msg)`. -/
  | userOutput (msg : String)
  /-- The deferred `cancel()`. -/
  | cancel
  deriving DecidableEq, Repr

/-- The message of success. -/
def successMessage : String :=
  "All self-hosted control plane components successfully started\n"

/-- Expression `fmt.Errorf("error while checking pod status: %v", err)`. -/
def pollError (err : Error) : Error :=
  "error while checking pod status: " ++ err

/-- Function `WaitUntilPodsRunning`: the error it returns (`none` for nil) and its effects. -/
def WaitUntilPodsRunning (env : WaitEnv) (pods : List String) :
    Option Error × List WaitEvent :=
  match NewStatusController env pods with
  | .error err => (some err, [])
  | .ok sc =>
    match env.Poll sc.client sc.watchPods with
    | some err => (some (pollError err), [WaitEvent.run, WaitEvent.poll, WaitEvent.cancel])
    | none =>
      (none, [WaitEvent.run, WaitEvent.poll, WaitEvent.userOutput successMessage,
        WaitEvent.cancel])

/-! ## Concrete stores used in the examples -/

/-- A pod store that holds the given pods under the given keys, in this key order, and
whose lookups never fail. -/
def PodStore.ofList (pods : List (String × corev1.Pod)) : PodStore where
  ListKeys := pods.map Prod.fst
  GetByKey := fun key =>
    match assocGet key pods with
    | some p => ⟨Obj.pod p, true, none⟩
    | none => ⟨Obj.nil, false, none⟩

/-- A pod store that lists the given keys and whose every lookup fails with `err`. -/
def PodStore.failing (keys : List String) (err : Error) : PodStore where
  ListKeys := keys
  GetByKey := fun _ => ⟨Obj.nil, false, some err⟩

/-- A pod store that holds a running pod under `"etcd-1"` and whose lookup of every other
key fails. -/
def PodStore.failingBut : PodStore where
  ListKeys := ["etcd-1", "kube-1"]
  GetByKey := fun key =>
    if key = "etcd-1" then ⟨Obj.pod ⟨"etcd-1", ⟨corev1.PodRunning⟩⟩, true, none⟩
    else ⟨Obj.nil, false, some "store closed"⟩

/-- A pod named `name` in phase `phase`. -/
def mkPod (name : String) (phase : corev1.PodPhase) : corev1.Pod := ⟨name, ⟨phase⟩⟩

/-- A `Ready` condition with the given status and heartbeat time. -/
def readyCondition (status : corev1.ConditionStatus) (heartbeat : Int) : corev1.NodeCondition :=
  ⟨corev1.NodeReady, status, heartbeat, 0, "KubeletReady", "kubelet is posting ready status"⟩

/-- A node named `name` with the given conditions. -/
def mkNode (name : String) (conditions : List corev1.NodeCondition) : corev1.Node :=
  ⟨name, ⟨conditions⟩⟩

/-- Controller as `NewStatusController` and `Run` leave it: no remembered snapshot. -/
def newController (podStore : PodStore) (nodeStore : NodeStore) (pods : List String) :
    statusController :=
  ⟨podStore, nodeStore, pods, none, none⟩

/-! ## Association lists and Go maps -/

theorem assocGet_assocSet {V : Type} (k k2 : String) (v : V) (l : List (String × V)) :
    assocGet k2 (assocSet k v l) = if k = k2 then some v else assocGet k2 l := by
  induction l with
  | nil => simp [assocSet, assocGet]
  | cons hd tl ih =>
    obtain ⟨k1, v1⟩ := hd
    by_cases hk : k1 = k
    · subst hk
      by_cases h2 : k1 = k2 <;> simp [assocSet, assocGet, h2]
    · by_cases h2 : k1 = k2
      · subst h2
        simp [assocSet, assocGet, hk, Ne.symm hk]
      · simp [assocSet, assocGet, hk, h2, ih]

theorem assocGet_eq_none_iff {V : Type} (k : String) (l : List (String × V)) :
    assocGet k l = none ↔ k ∉ l.map Prod.fst := by
  induction l with
  | nil => simp [assocGet]
  | cons hd tl ih =>
    obtain ⟨k1, v1⟩ := hd
    by_cases hk : k1 = k
    · simp [assocGet, hk]
    · simp only [assocGet, hk, if_false, ih, List.map_cons, List.mem_cons, not_or]
      constructor
      · intro h
        exact ⟨Ne.symm hk, h⟩
      · intro h
        exact h.2

theorem assocGet_mem {V : Type} (k : String) (v : V) (l : List (String × V))
    (h : assocGet k l = some v) : (k, v) ∈ l := by
  induction l with
  | nil => simp [assocGet] at h
  | cons hd tl ih =>
    obtain ⟨k1, v1⟩ := hd
    by_cases hk : k1 = k
    · simp only [assocGet, hk, if_true, Option.some.injEq] at h
      simp [hk, h]
    · simp only [assocGet, hk, if_false] at h
      exact List.mem_cons_of_mem _ (ih h)

theorem assocGet_of_mem {V : Type} (k : String) (v : V) (l : List (String × V))
    (hn : (l.map Prod.fst).Nodup) (h : (k, v) ∈ l) : assocGet k l = some v := by
  induction l with
  | nil => simp at h
  | cons hd tl ih =>
    obtain ⟨k1, v1⟩ := hd
    simp only [List.map_cons, List.nodup_cons] at hn
    rcases List.mem_cons.mp h with h1 | h1
    · simp only [Prod.mk.injEq] at h1
      simp [assocGet, h1.1, h1.2]
    · have hne : k1 ≠ k := by
        intro heq
        apply hn.1
        rw [heq]
        exact List.mem_map.mpr ⟨(k, v), h1, rfl⟩
      simp only [assocGet, hne, if_false]
      exact ih hn.2 h1

namespace GoMap

variable {V : Type}

theorem get?_make (k : String) : (make : GoMap V).get? k = none := rfl

theorem get?_set (m : GoMap V) (k k2 : String) (v : V) :
    (m.set k v).get? k2 = if k = k2 then some v else m.get? k2 :=
  assocGet_assocSet k k2 v m.entries

theorem mem_entries_iff (m : GoMap V) (k : String) (v : V) :
    (k, v) ∈ m.entries ↔ m.get? k = some v :=
  ⟨assocGet_of_mem k v m.entries m.nodup, assocGet_mem k v m.entries⟩

theorem ext_entries {m1 m2 : GoMap V} (h : m1.entries = m2.entries) : m1 = m2 := by
  cases m1
  cases m2
  cases h
  rfl

/-- On Go maps `reflect.DeepEqual` decides equality of the bindings: the two maps bind the
same keys to the same values. -/
theorem deepEqual_iff [DecidableEq V] (m1 m2 : GoMap V) :
    m1.deepEqual m2 = true ↔ ∀ k, m1.get? k = m2.get? k := by
  constructor
  · intro h
    simp only [deepEqual, len, Bool.and_eq_true, decide_eq_true_eq, List.all_eq_true] at h
    obtain ⟨hlen, hall⟩ := h
    have hsub : m1.entries.map Prod.fst ⊆ m2.entries.map Prod.fst := by
      intro k hk
      obtain ⟨⟨k1, v1⟩, hmem, rfl⟩ := List.mem_map.mp hk
      have h1 := hall (k1, v1) hmem
      by_contra hc
      rw [← assocGet_eq_none_iff] at hc
      simp only [get?] at h1
      rw [hc] at h1
      exact Option.noConfusion h1
    have hperm : (m1.entries.map Prod.fst).Perm (m2.entries.map Prod.fst) :=
      (List.subperm_of_subset m1.nodup hsub).perm_of_length_le (by simp [hlen])
    intro k
    cases h1 : m1.get? k with
    | some v =>
      have := hall (k, v) ((mem_entries_iff m1 k v).mpr h1)
      exact this.symm
    | none =>
      have hk1 : k ∉ m1.entries.map Prod.fst := (assocGet_eq_none_iff k _).mp h1
      have hk2 : k ∉ m2.entries.map Prod.fst := fun hc => hk1 (hperm.mem_iff.mpr hc)
      exact ((assocGet_eq_none_iff k _).mpr hk2).symm
  · intro h
    have hsub1 : m1.entries.map Prod.fst ⊆ m2.entries.map Prod.fst := by
      intro k hk
      by_contra hc
      have h2 := (assocGet_eq_none_iff k _).mpr hc
      have h1 : m1.get? k = none := (h k).trans h2
      exact ((assocGet_eq_none_iff k _).mp h1) hk
    have hsub2 : m2.entries.map Prod.fst ⊆ m1.entries.map Prod.fst := by
      intro k hk
      by_contra hc
      have h1 := (assocGet_eq_none_iff k _).mpr hc
      have h2 : m2.get? k = none := (h k).symm.trans h1
      exact ((assocGet_eq_none_iff k _).mp h2) hk
    have hl1 := (List.subperm_of_subset m1.nodup hsub1).length_le
    have hl2 := (List.subperm_of_subset m2.nodup hsub2).length_le
    simp only [List.length_map] at hl1 hl2
    simp only [deepEqual, len, Bool.and_eq_true, decide_eq_true_eq, List.all_eq_true]
    refine ⟨le_antisymm hl1 hl2, ?_⟩
    intro kv hkv
    rw [← h kv.1]
    exact (mem_entries_iff m1 kv.1 kv.2).mp hkv

theorem deepEqual_self [DecidableEq V] (m : GoMap V) : m.deepEqual m = true :=
  (deepEqual_iff m m).mpr (fun _ => rfl)

end GoMap

/-! ## Prefixes -/

theorem strings.HasPrefix_iff (s pre : String) :
    strings.HasPrefix s pre = true ↔ pre.data <+: s.data := by
  simp [strings.HasPrefix]

theorem strings.HasPrefix_self (s : String) : strings.HasPrefix s s = true :=
  (strings.HasPrefix_iff s s).mpr (List.prefix_refl _)

theorem strings.HasPrefix_trans {a b c : String} (h1 : strings.HasPrefix a b = true)
    (h2 : strings.HasPrefix b c = true) : strings.HasPrefix a c = true :=
  (strings.HasPrefix_iff a c).mpr
    (((strings.HasPrefix_iff b c).mp h2).trans ((strings.HasPrefix_iff a b).mp h1))

/-! ## Prefix resolution -/

namespace statusController

/-- What the inner loop of `PodStatus` computes: either the first key that has the watched
name as a prefix, or the watched name itself when no key has. -/
theorem resolve_spec (podNames : List String) (w : String) :
    (∃ before after, podNames = before ++ resolve podNames w :: after ∧
        strings.HasPrefix (resolve podNames w) w = true ∧
        ∀ x ∈ before, strings.HasPrefix x w = false) ∨
      (resolve podNames w = w ∧ ∀ x ∈ podNames, strings.HasPrefix x w = false) := by
  induction podNames with
  | nil => right; simp [resolve]
  | cons pn rest ih =>
    by_cases h : strings.HasPrefix pn w = true
    · left
      refine ⟨[], rest, ?_, ?_, ?_⟩ <;> simp [resolve, h]
    · have hf : strings.HasPrefix pn w = false := by simpa using h
      rcases ih with ⟨before, after, h1, h2, h3⟩ | ⟨h1, h2⟩
      · left
        refine ⟨pn :: before, after, ?_, ?_, ?_⟩
        · simp only [resolve, hf, Bool.false_eq_true, if_false, List.cons_append]
          rw [← h1]
        · simpa [resolve, hf] using h2
        · intro x hx
          rcases List.mem_cons.mp hx with hx | hx
          · rw [hx]; exact hf
          · exact h3 x hx
      · right
        refine ⟨by simpa [resolve, hf] using h1, ?_⟩
        intro x hx
        rcases List.mem_cons.mp hx with hx | hx
        · rw [hx]; exact hf
        · exact h2 x hx

theorem resolve_of_none (podNames : List String) (w : String)
    (h : ∀ x ∈ podNames, strings.HasPrefix x w = false) : resolve podNames w = w := by
  induction podNames with
  | nil => rfl
  | cons pn rest ih =>
    have h1 := h pn (List.mem_cons_self _ _)
    simp only [resolve, h1, Bool.false_eq_true, if_false]
    exact ih (fun x hx => h x (List.mem_cons_of_mem _ hx))

theorem resolve_of_first (before after : List String) (k w : String)
    (hk : strings.HasPrefix k w = true)
    (hb : ∀ x ∈ before, strings.HasPrefix x w = false) :
    resolve (before ++ k :: after) w = k := by
  induction before with
  | nil => simp [resolve, hk]
  | cons pn rest ih =>
    have h1 := hb pn (List.mem_cons_self _ _)
    simp only [List.cons_append, resolve, h1, Bool.false_eq_true, if_false]
    exact ih (fun x hx => hb x (List.mem_cons_of_mem _ hx))

/-- A resolved key resolves to itself. -/
theorem resolve_resolve (podNames : List String) (w : String) :
    resolve podNames (resolve podNames w) = resolve podNames w := by
  rcases resolve_spec podNames w with ⟨before, after, h1, h2, h3⟩ | ⟨h1, h2⟩
  · have hb : ∀ x ∈ before, strings.HasPrefix x (resolve podNames w) = false := by
      intro x hx
      by_contra hc
      have hc2 : strings.HasPrefix x (resolve podNames w) = true := by simpa using hc
      have := strings.HasPrefix_trans hc2 h2
      rw [h3 x hx] at this
      exact Bool.noConfusion this
    have := resolve_of_first before after (resolve podNames w) (resolve podNames w)
      (strings.HasPrefix_self _) hb
    rw [← h1] at this
    exact this
  · rw [h1]
    exact h1

theorem PodStatus.loop_cons_ok (podStore : PodStore) (podNames : List String) (w : String)
    (rest : List String) (status : GoMap corev1.PodPhase)
    (h : (podStore.GetByKey (resolve podNames w)).err = none) :
    PodStatus.loop podStore podNames (w :: rest) status =
      (let st := match PodStatus.entry podStore (resolve podNames w) with
          | some ph => status.set (resolve podNames w) ph
          | none => status
        ((PodStatus.loop podStore podNames rest st).1,
          Event.podStoreGetByKey (resolve podNames w) ::
            (PodStatus.loop podStore podNames rest st).2)) := by
  simp only [PodStatus.loop, PodStatus.entry]
  rw [h]
  simp only
  cases hex : (podStore.GetByKey (resolve podNames w)).«exists» with
  | false => simp
  | true =>
    cases hit : (podStore.GetByKey (resolve podNames w)).item <;> simp

theorem PodStatus.loop_cons_error (podStore : PodStore) (podNames : List String) (w : String)
    (rest : List String) (status : GoMap corev1.PodPhase) (e : Error)
    (h : (podStore.GetByKey (resolve podNames w)).err = some e) :
    PodStatus.loop podStore podNames (w :: rest) status =
      (.error e, [Event.podStoreGetByKey (resolve podNames w)]) := by
  simp only [PodStatus.loop]
  rw [h]

end statusController

namespace statusController

/-- Without a failing lookup the outer loop of `PodStatus` returns a snapshot; it binds
every resolved key that has an entry to that entry and keeps the other bindings. -/
theorem PodStatus.loop_ok (podStore : PodStore) (podNames : List String) (watched : List String)
    (status : GoMap corev1.PodPhase) (h : lookupsOk podStore podNames watched) :
    ∃ st, (PodStatus.loop podStore podNames watched status).1 = .ok st ∧
      (∀ k, st.get? k =
        if k ∈ watched.map (resolve podNames) ∧ (PodStatus.entry podStore k).isSome
        then PodStatus.entry podStore k else status.get? k) ∧
      (PodStatus.loop podStore podNames watched status).2 =
        watched.map (fun w => Event.podStoreGetByKey (resolve podNames w)) := by
  induction watched generalizing status with
  | nil =>
    exact ⟨status, rfl, by simp, rfl⟩
  | cons w rest ih =>
    have hw := h w (List.mem_cons_self _ _)
    have hrest : lookupsOk podStore podNames rest :=
      fun x hx => h x (List.mem_cons_of_mem _ hx)
    rw [PodStatus.loop_cons_ok podStore podNames w rest status hw]
    cases hent : PodStatus.entry podStore (resolve podNames w) with
    | none =>
      obtain ⟨st, h1, h2, h3⟩ := ih status hrest
      refine ⟨st, h1, ?_, by simp [h3]⟩
      intro k
      rw [h2 k]
      by_cases hk : resolve podNames w = k
      · subst hk
        simp [hent]
      · simp [hk, Ne.symm hk]
    | some ph =>
      obtain ⟨st, h1, h2, h3⟩ := ih (status.set (resolve podNames w) ph) hrest
      refine ⟨st, h1, ?_, by simp [h3]⟩
      intro k
      rw [h2 k, GoMap.get?_set]
      by_cases hk : resolve podNames w = k
      · subst hk
        simp [hent]
      · simp only [hk, if_false, List.map_cons, List.mem_cons, Ne.symm hk, false_or]

/-- The outer loop of `PodStatus` stops at the first failing lookup and returns its error. -/
theorem PodStatus.loop_error (podStore : PodStore) (podNames : List String)
    (before : List String) (w : String) (after : List String) (e : Error)
    (status : GoMap corev1.PodPhase) (hb : lookupsOk podStore podNames before)
    (hw : (podStore.GetByKey (resolve podNames w)).err = some e) :
    PodStatus.loop podStore podNames (before ++ w :: after) status =
      (.error e, (before ++ [w]).map (fun x => Event.podStoreGetByKey (resolve podNames x))) := by
  induction before generalizing status with
  | nil => simpa using PodStatus.loop_cons_error podStore podNames w after status e hw
  | cons x rest ih =>
    have hx := hb x (List.mem_cons_self _ _)
    have hrest : lookupsOk podStore podNames rest :=
      fun y hy => hb y (List.mem_cons_of_mem _ hy)
    rw [List.cons_append, PodStatus.loop_cons_ok podStore podNames x _ status hx]
    simp only [ih _ hrest, List.cons_append, List.map_cons]

/-- Either every lookup succeeds or the watched names split at the first failing one. -/
theorem lookupsOk_or_first (podStore : PodStore) (podNames watched : List String) :
    lookupsOk podStore podNames watched ∨
      ∃ before w after e, watched = before ++ w :: after ∧
        lookupsOk podStore podNames before ∧
        (podStore.GetByKey (resolve podNames w)).err = some e := by
  induction watched with
  | nil => left; intro w hw; simp at hw
  | cons x rest ih =>
    cases hx : (podStore.GetByKey (resolve podNames x)).err with
    | some e => right; exact ⟨[], x, rest, e, rfl, fun w hw => by simp at hw, hx⟩
    | none =>
      rcases ih with h | ⟨before, w, after, e, h1, h2, h3⟩
      · left
        intro w hw
        rcases List.mem_cons.mp hw with hw | hw
        · rw [hw]; exact hx
        · exact h w hw
      · right
        refine ⟨x :: before, w, after, e, by simp [h1], ?_, h3⟩
        intro y hy
        rcases List.mem_cons.mp hy with hy | hy
        · rw [hy]; exact hx
        · exact h2 y hy

/-- The `range ps` loop: the result is the conjunction of the initial flag with every phase
being `Running`; one report per entry is emitted exactly when `changed` holds. -/
theorem allPodsRunning_range_eq (changed : Bool) (l : List (String × corev1.PodPhase))
    (running : Bool) :
    allPodsRunning.range changed l running =
      (running && l.all (fun kv => decide (kv.2 = corev1.PodRunning)),
        if changed then l.map (fun kv => Event.podReport kv.1 kv.2) else []) := by
  induction l generalizing running with
  | nil => simp [allPodsRunning.range]
  | cons hd tl ih =>
    obtain ⟨p, s⟩ := hd
    simp only [allPodsRunning.range, ih]
    by_cases hs : s = corev1.PodRunning <;> cases changed <;> simp [hs]

/-- The `range ns` loop: the result is the conjunction of the initial flag with every
condition having status `True`; one report per entry is emitted exactly when `changed` holds. -/
theorem allNodesReady_range_eq (changed : Bool) (l : List (String × corev1.NodeCondition))
    (running : Bool) :
    allNodesReady.range changed l running =
      (running && l.all (fun kv => decide (kv.2.Status = corev1.ConditionTrue)),
        if changed then l.map (fun kv => Event.nodeReport kv.1 kv.2) else []) := by
  induction l generalizing running with
  | nil => simp [allNodesReady.range]
  | cons hd tl ih =>
    obtain ⟨p, s⟩ := hd
    simp only [allNodesReady.range, ih]
    by_cases hs : s.Status = corev1.ConditionTrue <;> cases changed <;> simp [hs]

end statusController

namespace statusController

theorem PodStatus_s (s : statusController) : s.PodStatus.s = s := rfl

theorem PodStatus_val (s : statusController) :
    s.PodStatus.val = (PodStatus.loop s.podStore s.podStore.ListKeys s.watchPods GoMap.make).1 :=
  rfl

theorem PodStatus_events (s : statusController) :
    s.PodStatus.events = Event.podStoreListKeys ::
      (PodStatus.loop s.podStore s.podStore.ListKeys s.watchPods GoMap.make).2 :=
  rfl

/-- The flag `changed` of `allPodsRunning` and `allNodesReady`, as a function of the
remembered snapshot and the new one: with no remembered snapshot the new one is taken as
the remembered one, so nothing has changed. -/
theorem changed_eq {V : Type} [DecidableEq V] (last : Option (GoMap V)) (m : GoMap V) :
    (!DeepEqual (some m) (if last.isNone then some m else last)) =
      match last with
      | none => false
      | some l => !m.deepEqual l := by
  cases last with
  | none => simp [DeepEqual, GoMap.deepEqual_self]
  | some l => simp [DeepEqual]

/-- Method `allPodsRunning` when `PodStatus` returns a snapshot. -/
theorem allPodsRunning_ok (s : statusController) (ps : GoMap corev1.PodPhase)
    (h : s.PodStatus.val = .ok ps) :
    s.allPodsRunning =
      ⟨ps.entries.all (fun kv => decide (kv.2 = corev1.PodRunning)),
        { s with lastPodPhases := some ps },
        s.PodStatus.events ++
          if (match s.lastPodPhases with
              | none => false
              | some l => !ps.deepEqual l) = true
          then ps.entries.map (fun kv => Event.podReport kv.1 kv.2) else []⟩ := by
  unfold allPodsRunning
  simp only [h, PodStatus_s, allPodsRunning_range_eq, Bool.true_and]
  cases hl : s.lastPodPhases with
  | none => simp [DeepEqual, GoMap.deepEqual_self]
  | some l => simp [DeepEqual, hl]

/-- Method `allPodsRunning` when `PodStatus` returns an error. -/
theorem allPodsRunning_error (s : statusController) (e : Error)
    (h : s.PodStatus.val = .error e) :
    s.allPodsRunning =
      ⟨false, s, s.PodStatus.events ++ [Event.glogInfo "Error retriving pod statuses: %v" e]⟩ := by
  unfold allPodsRunning
  simp only [h, PodStatus_s]

/-- Method `NodeStatus` never returns an error. -/
theorem NodeStatus_val (s : statusController) :
    s.NodeStatus.val = .ok (NodeStatus.loop s.nodeStore.List GoMap.make) := rfl

/-- Method `allNodesReady`, with the snapshot `NodeStatus` builds. -/
theorem allNodesReady_eq (s : statusController) :
    s.allNodesReady =
      ⟨(NodeStatus.loop s.nodeStore.List GoMap.make).entries.all
          (fun kv => decide (kv.2.Status = corev1.ConditionTrue)),
        { s with lastNodeConditions := some (NodeStatus.loop s.nodeStore.List GoMap.make) },
        Event.nodeStoreList ::
          if (match s.lastNodeConditions with
              | none => false
              | some l => !(NodeStatus.loop s.nodeStore.List GoMap.make).deepEqual l) = true
          then (NodeStatus.loop s.nodeStore.List GoMap.make).entries.map
            (fun kv => Event.nodeReport kv.1 kv.2) else []⟩ := by
  unfold allNodesReady
  simp only [NodeStatus, allNodesReady_range_eq, Bool.true_and]
  cases hl : s.lastNodeConditions with
  | none => simp [DeepEqual, GoMap.deepEqual_self]
  | some l => simp [DeepEqual, hl]

/-- Method `AllRunning` when pod readiness is false: `allNodesReady` is not called. -/
theorem AllRunning_of_pods_false (s : statusController) (h : s.allPodsRunning.val = false) :
    s.AllRunning = ⟨(false, none), s.allPodsRunning.s, s.allPodsRunning.events ++ []⟩ := by
  unfold AllRunning
  simp [h]

/-- Method `AllRunning` when pod readiness is true: the result is that of `allNodesReady`. -/
theorem AllRunning_of_pods_true (s : statusController) (h : s.allPodsRunning.val = true) :
    s.AllRunning = ⟨(s.allPodsRunning.s.allNodesReady.val, none),
      s.allPodsRunning.s.allNodesReady.s,
      s.allPodsRunning.events ++ s.allPodsRunning.s.allNodesReady.events⟩ := by
  unfold AllRunning
  simp [h]

end statusController

namespace statusController

theorem resolvesTo_iff (podNames : List String) (w k : String) :
    ResolvesTo podNames w k ↔ resolve podNames w = k := by
  constructor
  · rintro (⟨before, after, h1, h2, h3⟩ | ⟨h1, h2⟩)
    · rw [h1]
      exact resolve_of_first before after k w h2 h3
    · rw [h1]
      exact resolve_of_none podNames w h2
  · intro h
    subst h
    exact resolve_spec podNames w

theorem lookupsOk_of_store (s : statusController) (h : s.podStore.lookupsDoNotFail) :
    lookupsOk s.podStore s.podStore.ListKeys s.watchPods :=
  fun w _ => h (resolve s.podStore.ListKeys w)

/-- Without a failing lookup `PodStatus` returns a snapshot whose entries are exactly the
entries of the resolved keys of the watched names. -/
theorem PodStatus_ok (s : statusController)
    (h : lookupsOk s.podStore s.podStore.ListKeys s.watchPods) :
    ∃ ps, s.PodStatus.val = .ok ps ∧
      ∀ k v, (k, v) ∈ ps.entries ↔
        (k ∈ s.watchPods.map (resolve s.podStore.ListKeys) ∧
          PodStatus.entry s.podStore k = some v) := by
  obtain ⟨ps, h1, h2, _⟩ :=
    PodStatus.loop_ok s.podStore s.podStore.ListKeys s.watchPods GoMap.make h
  refine ⟨ps, h1, ?_⟩
  intro k v
  rw [GoMap.mem_entries_iff, h2 k, GoMap.get?_make]
  by_cases hk : k ∈ s.watchPods.map (resolve s.podStore.ListKeys)
  · cases hent : PodStatus.entry s.podStore k <;> simp [hk]
  · simp [hk]

theorem allPodsRunning_podStore (s : statusController) :
    s.allPodsRunning.s.podStore = s.podStore ∧ s.allPodsRunning.s.nodeStore = s.nodeStore ∧
      s.allPodsRunning.s.watchPods = s.watchPods ∧
      s.allPodsRunning.s.lastNodeConditions = s.lastNodeConditions := by
  cases h : s.PodStatus.val with
  | error e => simp [allPodsRunning_error s e h]
  | ok ps => simp [allPodsRunning_ok s ps h]

/-- The entry of a key under which a running pod is stored. -/
theorem PodStatus.entry_of_pod (podStore : PodStore) (k : String) (p : corev1.Pod)
    (e : Option Error) (h : podStore.GetByKey k = ⟨Obj.pod p, true, e⟩) :
    PodStatus.entry podStore k = some p.Status.Phase := by
  simp [PodStatus.entry, h]

/-- Pod readiness, for a pod store that holds pods and whose lookups do not fail. -/
theorem allPodsRunning_iff (s : statusController) (hok : s.podStore.lookupsDoNotFail)
    (hpods : s.podStore.holdsPods) :
    s.allPodsRunning.val = true ↔
      ∀ w ∈ s.watchPods, ∃ p,
        s.podStore.GetByKey (resolve s.podStore.ListKeys w) = ⟨Obj.pod p, true, none⟩ ∧
          p.Status.Phase = corev1.PodRunning := by
  obtain ⟨ps, h1, h2⟩ := PodStatus_ok s (lookupsOk_of_store s hok)
  rw [allPodsRunning_ok s ps h1]
  simp only [List.all_eq_true, decide_eq_true_eq]
  constructor
  · intro hall w hw
    have hmem : resolve s.podStore.ListKeys w ∈ s.watchPods.map (resolve s.podStore.ListKeys) :=
      List.mem_map.mpr ⟨w, hw, rfl⟩
    have herr := hok (resolve s.podStore.ListKeys w)
    cases hex : (s.podStore.GetByKey (resolve s.podStore.ListKeys w)).«exists» with
    | false =>
      have hent : PodStatus.entry s.podStore (resolve s.podStore.ListKeys w) =
          some doesNotExist := by
        simp [PodStatus.entry, hex]
      have hbad : doesNotExist = corev1.PodRunning :=
        hall (resolve s.podStore.ListKeys w, doesNotExist) ((h2 _ _).mpr ⟨hmem, hent⟩)
      exact absurd hbad (by decide)
    | true =>
      obtain ⟨p, hp⟩ := hpods _ hex
      have hget : s.podStore.GetByKey (resolve s.podStore.ListKeys w) =
          ⟨Obj.pod p, true, none⟩ := by
        cases hr : s.podStore.GetByKey (resolve s.podStore.ListKeys w) with
        | mk item ex err =>
          rw [hr] at hp hex herr
          simp only at hp hex herr
          rw [hp, hex, herr]
      refine ⟨p, hget, ?_⟩
      exact hall _ ((h2 _ _).mpr ⟨hmem, PodStatus.entry_of_pod _ _ _ _ hget⟩)
  · intro hall kv hkv
    obtain ⟨hk, hent⟩ := (h2 kv.1 kv.2).mp hkv
    obtain ⟨w, hw, hwk⟩ := List.mem_map.mp hk
    obtain ⟨p, hget, hrun⟩ := hall w hw
    rw [hwk] at hget
    rw [PodStatus.entry_of_pod _ _ _ _ hget] at hent
    rw [← Option.some.inj hent]
    exact hrun

end statusController

theorem PodStore.ofList_lookupsDoNotFail (pods : List (String × corev1.Pod)) :
    (PodStore.ofList pods).lookupsDoNotFail := by
  intro key
  simp only [PodStore.ofList]
  cases assocGet key pods <;> rfl

theorem PodStore.ofList_holdsPods (pods : List (String × corev1.Pod)) :
    (PodStore.ofList pods).holdsPods := by
  intro key
  simp only [PodStore.ofList]
  cases assocGet key pods with
  | none => intro h; exact Bool.noConfusion h
  | some p => intro _; exact ⟨p, rfl⟩

namespace statusController

theorem PodStatus.loop_events (podStore : PodStore) (podNames watched : List String)
    (status : GoMap corev1.PodPhase) :
    ∀ ev ∈ (PodStatus.loop podStore podNames watched status).2,
      ∃ key, ev = Event.podStoreGetByKey key := by
  induction watched generalizing status with
  | nil => intro ev hev; simp [PodStatus.loop] at hev
  | cons w rest ih =>
    cases herr : (podStore.GetByKey (resolve podNames w)).err with
    | some e =>
      rw [PodStatus.loop_cons_error podStore podNames w rest status e herr]
      intro ev hev
      exact ⟨_, List.mem_singleton.mp hev⟩
    | none =>
      rw [PodStatus.loop_cons_ok podStore podNames w rest status herr]
      intro ev hev
      rcases List.mem_cons.mp hev with h | h
      · exact ⟨_, h⟩
      · exact ih _ ev h

/-- The effects of `PodStatus` are reads of the pod store. -/
theorem PodStatus_events_reads (s : statusController) :
    ∀ ev ∈ s.PodStatus.events,
      ev = Event.podStoreListKeys ∨ ∃ key, ev = Event.podStoreGetByKey key := by
  intro ev hev
  rw [PodStatus_events] at hev
  rcases List.mem_cons.mp hev with h | h
  · left; exact h
  · right; exact PodStatus.loop_events _ _ _ _ ev h

/-- Method `allPodsRunning` neither reads the node store nor reports on a node. -/
theorem allPodsRunning_events_no_node (s : statusController) :
    ∀ ev ∈ s.allPodsRunning.events, ev.isNodeStoreRead = false ∧ ev.isNodeReport = false := by
  have hreads : ∀ ev ∈ s.PodStatus.events,
      ev.isNodeStoreRead = false ∧ ev.isNodeReport = false := by
    intro ev hev
    rcases PodStatus_events_reads s ev hev with h | ⟨key, h⟩ <;> subst h <;> exact ⟨rfl, rfl⟩
  cases h : s.PodStatus.val with
  | error e =>
    rw [allPodsRunning_error s e h]
    intro ev hev
    rcases List.mem_append.mp hev with h1 | h1
    · exact hreads ev h1
    · rw [List.mem_singleton.mp h1]
      exact ⟨rfl, rfl⟩
  | ok ps =>
    rw [allPodsRunning_ok s ps h]
    intro ev hev
    rcases List.mem_append.mp hev with h1 | h1
    · exact hreads ev h1
    · split at h1
      · obtain ⟨kv, _, rfl⟩ := List.mem_map.mp h1
        exact ⟨rfl, rfl⟩
      · simp at h1

/-- Method `allPodsRunning` does not depend on the node store. -/
theorem allPodsRunning_nodeStore (s : statusController) (nodeStore : NodeStore) :
    ({ s with nodeStore := nodeStore } : statusController).allPodsRunning =
      ⟨s.allPodsRunning.val, { s.allPodsRunning.s with nodeStore := nodeStore },
        s.allPodsRunning.events⟩ := by
  have hval : ({ s with nodeStore := nodeStore } : statusController).PodStatus.val =
      s.PodStatus.val := rfl
  have hev : ({ s with nodeStore := nodeStore } : statusController).PodStatus.events =
      s.PodStatus.events := rfl
  cases h : s.PodStatus.val with
  | error e =>
    rw [allPodsRunning_error s e h, allPodsRunning_error _ e (hval.trans h), hev]
  | ok ps =>
    rw [allPodsRunning_ok s ps h, allPodsRunning_ok _ ps (hval.trans h), hev]

end statusController

namespace statusController

/-- A snapshot is returned only when no lookup failed. -/
theorem lookupsOk_of_PodStatus_ok (s : statusController) (ps : GoMap corev1.PodPhase)
    (h : s.PodStatus.val = .ok ps) : lookupsOk s.podStore s.podStore.ListKeys s.watchPods := by
  rcases lookupsOk_or_first s.podStore s.podStore.ListKeys s.watchPods with
    hok | ⟨before, w, after, e, hsplit, hb, hw⟩
  · exact hok
  · rw [PodStatus_val, hsplit,
      PodStatus.loop_error s.podStore s.podStore.ListKeys before w after e GoMap.make hb hw] at h
    exact Except.noConfusion h

/-- The entries of a returned snapshot. -/
theorem PodStatus_entries (s : statusController) (ps : GoMap corev1.PodPhase)
    (h : s.PodStatus.val = .ok ps) (k : String) (v : corev1.PodPhase) :
    (k, v) ∈ ps.entries ↔
      (k ∈ s.watchPods.map (resolve s.podStore.ListKeys) ∧
        PodStatus.entry s.podStore k = some v) := by
  obtain ⟨ps2, h1, h2⟩ := PodStatus_ok s (lookupsOk_of_PodStatus_ok s ps h)
  rw [h] at h1
  cases h1
  exact h2 k v

/-- An entry that is not `Running` makes pod readiness false. -/
theorem allPodsRunning_false_of_entry (s : statusController) (ps : GoMap corev1.PodPhase)
    (h : s.PodStatus.val = .ok ps) (k : String) (v : corev1.PodPhase)
    (hmem : (k, v) ∈ ps.entries) (hv : v ≠ corev1.PodRunning) :
    s.allPodsRunning.val = false := by
  rw [allPodsRunning_ok s ps h]
  simp only [List.all_eq_false, decide_eq_true_eq]
  exact ⟨(k, v), hmem, hv⟩

/-- Pod readiness is false when `PodStatus` fails. -/
theorem allPodsRunning_false_of_error (s : statusController) (e : Error)
    (h : s.PodStatus.val = .error e) : s.allPodsRunning.val = false := by
  rw [allPodsRunning_error s e h]

end statusController

theorem PodStore.ofList_agree (pods : List (String × corev1.Pod)) :
    (PodStore.ofList pods).agree := by
  intro key
  simp only [PodStore.ofList]
  cases h : assocGet key pods with
  | none =>
    simp only [Bool.false_eq_true, false_iff]
    exact (assocGet_eq_none_iff key pods).mp h
  | some p =>
    simp only [true_iff]
    exact List.mem_map.mpr ⟨(key, p), assocGet_mem key p pods h, rfl⟩

namespace statusController

theorem NodeStatus.firstReady_eq_some (l : List corev1.NodeCondition) (c : corev1.NodeCondition) :
    NodeStatus.firstReady l = some c ↔ IsFirstReady l c := by
  induction l with
  | nil =>
    simp only [NodeStatus.firstReady, IsFirstReady]
    constructor
    · intro h; exact Option.noConfusion h
    · rintro ⟨before, after, h, _⟩
      simp at h
  | cons x rest ih =>
    by_cases hx : x.«Type» = corev1.NodeReady
    · simp only [NodeStatus.firstReady, hx, if_true, Option.some.injEq]
      constructor
      · intro h
        subst h
        exact ⟨[], rest, rfl, hx, by simp⟩
      · rintro ⟨before, after, h1, h2, h3⟩
        cases before with
        | nil =>
          simp only [List.nil_append, List.cons.injEq] at h1
          exact h1.1
        | cons y ys =>
          simp only [List.cons_append, List.cons.injEq] at h1
          exact absurd hx (h1.1 ▸ h3 y (List.mem_cons_self _ _))
    · simp only [NodeStatus.firstReady, hx, if_false, ih]
      constructor
      · rintro ⟨before, after, h1, h2, h3⟩
        refine ⟨x :: before, after, by simp [h1], h2, ?_⟩
        intro y hy
        rcases List.mem_cons.mp hy with h | h
        · rw [h]; exact hx
        · exact h3 y h
      · rintro ⟨before, after, h1, h2, h3⟩
        cases before with
        | nil =>
          simp only [List.nil_append, List.cons.injEq] at h1
          exact absurd (h1.1 ▸ h2) hx
        | cons y ys =>
          simp only [List.cons_append, List.cons.injEq] at h1
          exact ⟨ys, after, h1.2, h2, fun z hz => h3 z (List.mem_cons_of_mem _ hz)⟩

theorem NodeStatus.firstReady_isSome (n : corev1.Node) :
    (NodeStatus.firstReady n.Status.Conditions).isSome = hasReady n := by
  unfold hasReady
  induction n.Status.Conditions with
  | nil => rfl
  | cons x rest ih =>
    by_cases hx : x.«Type» = corev1.NodeReady
    · simp [NodeStatus.firstReady, hx]
    · simp [NodeStatus.firstReady, hx, ih]

theorem hasReady_iff (n : corev1.Node) :
    hasReady n = true ↔ ∃ c ∈ n.Status.Conditions, c.«Type» = corev1.NodeReady := by
  simp [hasReady]

/-- Nodes of another name, and nodes without a `Ready` condition, leave a binding as it is. -/
theorem NodeStatus.loop_get?_of_none (l : List corev1.Node) (st : GoMap corev1.NodeCondition)
    (name : String) (h : ∀ m ∈ l, m.Name = name → hasReady m = false) :
    (NodeStatus.loop l st).get? name = st.get? name := by
  induction l generalizing st with
  | nil => rfl
  | cons n rest ih =>
    have hrest : ∀ m ∈ rest, m.Name = name → hasReady m = false :=
      fun m hm => h m (List.mem_cons_of_mem _ hm)
    cases hf : NodeStatus.firstReady n.Status.Conditions with
    | none => simp only [NodeStatus.loop, hf]; exact ih st hrest
    | some c =>
      simp only [NodeStatus.loop, hf]
      rw [ih _ hrest, GoMap.get?_set]
      have hne : n.Name ≠ name := by
        intro heq
        have h1 := h n (List.mem_cons_self _ _) heq
        rw [← NodeStatus.firstReady_isSome, hf] at h1
        exact Bool.noConfusion h1
      simp [hne]

/-- Every binding of the result is an old binding or the first `Ready` condition of a node. -/
theorem NodeStatus.loop_get?_some (l : List corev1.Node) (st : GoMap corev1.NodeCondition)
    (name : String) (c : corev1.NodeCondition) (h : (NodeStatus.loop l st).get? name = some c) :
    st.get? name = some c ∨
      ∃ n ∈ l, n.Name = name ∧ NodeStatus.firstReady n.Status.Conditions = some c := by
  induction l generalizing st with
  | nil => left; exact h
  | cons n rest ih =>
    cases hf : NodeStatus.firstReady n.Status.Conditions with
    | none =>
      simp only [NodeStatus.loop, hf] at h
      rcases ih st h with h1 | ⟨m, hm, h1⟩
      · left; exact h1
      · right; exact ⟨m, List.mem_cons_of_mem _ hm, h1⟩
    | some c2 =>
      simp only [NodeStatus.loop, hf] at h
      rcases ih _ h with h1 | ⟨m, hm, h1⟩
      · rw [GoMap.get?_set] at h1
        by_cases hn : n.Name = name
        · right
          simp only [hn, if_true] at h1
          exact ⟨n, List.mem_cons_self _ _, hn, by rw [hf, h1]⟩
        · left
          simpa [hn] using h1
      · right; exact ⟨m, List.mem_cons_of_mem _ hm, h1⟩

/-- A node with a `Ready` condition binds its name, unless a later node of the same name
with a `Ready` condition overwrites the binding. -/
theorem NodeStatus.loop_get?_last (before : List corev1.Node) (n : corev1.Node)
    (after : List corev1.Node) (st : GoMap corev1.NodeCondition) (c : corev1.NodeCondition)
    (hc : NodeStatus.firstReady n.Status.Conditions = some c)
    (hafter : ∀ m ∈ after, m.Name = n.Name → hasReady m = false) :
    (NodeStatus.loop (before ++ n :: after) st).get? n.Name = some c := by
  induction before generalizing st with
  | nil =>
    simp only [List.nil_append, NodeStatus.loop, hc]
    rw [NodeStatus.loop_get?_of_none after _ n.Name hafter, GoMap.get?_set]
    simp
  | cons x rest ih =>
    simp only [List.cons_append, NodeStatus.loop]
    cases NodeStatus.firstReady x.Status.Conditions with
    | none => exact ih st
    | some c2 => exact ih _

/-- Nodes without a `Ready` condition do not contribute to the snapshot. -/
theorem NodeStatus.loop_filter (l : List corev1.Node) (st : GoMap corev1.NodeCondition) :
    NodeStatus.loop (l.filter hasReady) st = NodeStatus.loop l st := by
  induction l generalizing st with
  | nil => rfl
  | cons n rest ih =>
    have hs := NodeStatus.firstReady_isSome n
    cases hf : NodeStatus.firstReady n.Status.Conditions with
    | none =>
      rw [hf] at hs
      have hr : hasReady n = false := hs.symm
      simp only [List.filter_cons, hr, Bool.false_eq_true, if_false, NodeStatus.loop, hf]
      exact ih st
    | some c =>
      rw [hf] at hs
      have hr : hasReady n = true := hs.symm
      simp only [List.filter_cons, hr, if_true, NodeStatus.loop, hf]
      exact ih _

/-- The names bound in the result: the names bound before and the names of the nodes that
have a `Ready` condition. -/
theorem NodeStatus.loop_isSome (l : List corev1.Node) (st : GoMap corev1.NodeCondition)
    (name : String) :
    ((NodeStatus.loop l st).get? name).isSome =
      ((st.get? name).isSome || l.any (fun n => decide (n.Name = name) && hasReady n)) := by
  induction l generalizing st with
  | nil => simp [NodeStatus.loop]
  | cons n rest ih =>
    have hs := NodeStatus.firstReady_isSome n
    cases hf : NodeStatus.firstReady n.Status.Conditions with
    | none =>
      rw [hf] at hs
      have hr : hasReady n = false := hs.symm
      simp only [NodeStatus.loop, hf, ih, List.any_cons, hr, Bool.and_false, Bool.false_or]
    | some c =>
      rw [hf] at hs
      have hr : hasReady n = true := hs.symm
      simp only [NodeStatus.loop, hf, ih, List.any_cons, hr, Bool.and_true, GoMap.get?_set]
      by_cases hn : n.Name = name <;> simp [hn]

/-- The boolean that `AllRunning` returns. -/
theorem AllRunning_val (s : statusController) :
    s.AllRunning.val =
      (s.allPodsRunning.val &&
        (NodeStatus.loop s.nodeStore.List GoMap.make).entries.all
          (fun kv => decide (kv.2.Status = corev1.ConditionTrue)), none) := by
  cases hp : s.allPodsRunning.val with
  | false => rw [AllRunning_of_pods_false s hp]; rfl
  | true =>
    rw [AllRunning_of_pods_true s hp, allNodesReady_eq, (allPodsRunning_podStore s).2.1]
    rfl

end statusController

namespace statusController

/-- Method `PodStatus` emits no report line. -/
theorem PodStatus_events_filter (s : statusController) :
    s.PodStatus.events.filter Event.isReport = [] := by
  rw [List.filter_eq_nil_iff]
  intro ev hev
  rcases PodStatus_events_reads s ev hev with h | ⟨key, h⟩ <;> subst h <;> simp [Event.isReport]

theorem filter_podReports (l : List (String × corev1.PodPhase)) :
    (l.map (fun kv => Event.podReport kv.1 kv.2)).filter Event.isReport =
      l.map (fun kv => Event.podReport kv.1 kv.2) := by
  rw [List.filter_eq_self]
  intro ev hev
  obtain ⟨kv, _, rfl⟩ := List.mem_map.mp hev
  rfl

theorem filter_nodeReports (l : List (String × corev1.NodeCondition)) :
    (l.map (fun kv => Event.nodeReport kv.1 kv.2)).filter Event.isReport =
      l.map (fun kv => Event.nodeReport kv.1 kv.2) := by
  rw [List.filter_eq_self]
  intro ev hev
  obtain ⟨kv, _, rfl⟩ := List.mem_map.mp hev
  rfl

/-- The report lines of `allPodsRunning` when `PodStatus` returns the snapshot `ps`. -/
theorem allPodsRunning_reports (s : statusController) (ps : GoMap corev1.PodPhase)
    (h : s.PodStatus.val = .ok ps) :
    s.allPodsRunning.events.filter Event.isReport =
      match s.lastPodPhases with
      | none => []
      | some l =>
        if ps.deepEqual l = true then []
        else ps.entries.map (fun kv => Event.podReport kv.1 kv.2) := by
  rw [allPodsRunning_ok s ps h, List.filter_append, PodStatus_events_filter, List.nil_append]
  cases s.lastPodPhases with
  | none => simp
  | some l =>
    cases hd : ps.deepEqual l with
    | true => simp [hd]
    | false => simp [hd, filter_podReports]

/-- The report lines of `allNodesReady`. -/
theorem allNodesReady_reports (s : statusController) :
    s.allNodesReady.events.filter Event.isReport =
      match s.lastNodeConditions with
      | none => []
      | some l =>
        if (NodeStatus.loop s.nodeStore.List GoMap.make).deepEqual l = true then []
        else (NodeStatus.loop s.nodeStore.List GoMap.make).entries.map
          (fun kv => Event.nodeReport kv.1 kv.2) := by
  rw [allNodesReady_eq]
  cases s.lastNodeConditions with
  | none => simp [Event.isReport]
  | some l =>
    cases hd : (NodeStatus.loop s.nodeStore.List GoMap.make).deepEqual l with
    | true => simp [hd, Event.isReport]
    | false => simp [hd, Event.isReport, filter_nodeReports]

end statusController

theorem PodStore.ofList_noSentinelPhase (pods : List (String × corev1.Pod))
    (h : ∀ kv ∈ pods, kv.2.Status.Phase ≠ doesNotExist) :
    (PodStore.ofList pods).noSentinelPhase := by
  intro key p hitem
  simp only [PodStore.ofList] at hitem
  cases hget : assocGet key pods with
  | none =>
    rw [hget] at hitem
    exact Obj.noConfusion hitem
  | some q =>
    rw [hget] at hitem
    simp only [Obj.pod.injEq] at hitem
    subst hitem
    exact h (key, q) (assocGet_mem key q pods hget)

/-! ## Claims -/

/-- C1: for a pod store that holds pods and whose lookups do not fail, and every node store
and controller state, `AllRunning` returns true if and only if (a) for every watched name
the key it resolves to (the first key of `ListKeys` having it as a prefix, else the name
itself) is present in the pod store with phase `Running`, and (b) every entry of the node
snapshot built by `NodeStatus` has status `True`.  With watched pods `["etcd"]`, pod store
`{"etcd-1": Running}` and node store `{"node1": Ready=True}` it returns `(true, nil)`. -/
theorem C1_AllRunning_iff (s : statusController) (hok : s.podStore.lookupsDoNotFail)
    (hpods : s.podStore.holdsPods) :
    (s.AllRunning.val.1 = true ↔
      (∀ w ∈ s.watchPods, ∀ k, statusController.ResolvesTo s.podStore.ListKeys w k →
          ∃ p, s.podStore.GetByKey k = ⟨Obj.pod p, true, none⟩ ∧
            p.Status.Phase = corev1.PodRunning) ∧
        (∃ ns, s.NodeStatus.val = .ok ns ∧
          ∀ kv ∈ ns.entries, kv.2.Status = corev1.ConditionTrue)) ∧
    (newController (PodStore.ofList [("etcd-1", mkPod "etcd-1" corev1.PodRunning)])
        ⟨[mkNode "node1" [readyCondition corev1.ConditionTrue 0]]⟩ ["etcd"]).AllRunning.val =
      (true, none) := by
  refine ⟨?_, by decide⟩
  have hpodsIff := statusController.allPodsRunning_iff s hok hpods
  have hres : (∀ w ∈ s.watchPods, ∀ k, statusController.ResolvesTo s.podStore.ListKeys w k →
      ∃ p, s.podStore.GetByKey k = ⟨Obj.pod p, true, none⟩ ∧
        p.Status.Phase = corev1.PodRunning) ↔
      ∀ w ∈ s.watchPods, ∃ p,
        s.podStore.GetByKey (statusController.resolve s.podStore.ListKeys w) =
          ⟨Obj.pod p, true, none⟩ ∧ p.Status.Phase = corev1.PodRunning := by
    constructor
    · intro h w hw
      exact h w hw _ ((statusController.resolvesTo_iff _ _ _).mpr rfl)
    · intro h w hw k hk
      rw [← (statusController.resolvesTo_iff _ _ _).mp hk]
      exact h w hw
  rw [hres, ← hpodsIff]
  cases hp : s.allPodsRunning.val with
  | false =>
    rw [statusController.AllRunning_of_pods_false s hp]
    simp
  | true =>
    rw [statusController.AllRunning_of_pods_true s hp, statusController.allNodesReady_eq]
    simp only [(statusController.allPodsRunning_podStore s).2.1, List.all_eq_true,
      decide_eq_true_eq, statusController.NodeStatus_val, Except.ok.injEq, exists_eq_left',
      true_and]

/-- Witness of C1 at the end-to-end example of the specification. -/
theorem C1_AllRunning_iff_witness :
    (PodStore.ofList [("etcd-1", mkPod "etcd-1" corev1.PodRunning)]).lookupsDoNotFail ∧
    (PodStore.ofList [("etcd-1", mkPod "etcd-1" corev1.PodRunning)]).holdsPods ∧
    ((newController (PodStore.ofList [("etcd-1", mkPod "etcd-1" corev1.PodRunning)])
        ⟨[mkNode "node1" [readyCondition corev1.ConditionTrue 0]]⟩ ["etcd"]).AllRunning.val.1
        = true ↔
      (∀ w ∈ ["etcd"], ∀ k, statusController.ResolvesTo ["etcd-1"] w k →
          ∃ p, (PodStore.ofList [("etcd-1", mkPod "etcd-1" corev1.PodRunning)]).GetByKey k =
              ⟨Obj.pod p, true, none⟩ ∧
            p.Status.Phase = corev1.PodRunning) ∧
        (∃ ns, (newController (PodStore.ofList [("etcd-1", mkPod "etcd-1" corev1.PodRunning)])
            ⟨[mkNode "node1" [readyCondition corev1.ConditionTrue 0]]⟩ ["etcd"]).NodeStatus.val
              = .ok ns ∧
          ∀ kv ∈ ns.entries, kv.2.Status = corev1.ConditionTrue)) :=
  ⟨PodStore.ofList_lookupsDoNotFail _, PodStore.ofList_holdsPods _,
    (C1_AllRunning_iff
      (newController (PodStore.ofList [("etcd-1", mkPod "etcd-1" corev1.PodRunning)])
        ⟨[mkNode "node1" [readyCondition corev1.ConditionTrue 0]]⟩ ["etcd"])
      (PodStore.ofList_lookupsDoNotFail _) (PodStore.ofList_holdsPods _)).1⟩

/-- C2: for every controller state and every behaviour of the stores, the error value that
`AllRunning` returns is nil; when `PodStatus` fails with an error the failure shows only as
the boolean false, as at a pod store whose every lookup fails. -/
theorem C2_AllRunning_error_nil (s : statusController) :
    s.AllRunning.val.2 = none ∧
      (∀ e, s.PodStatus.val = .error e → s.AllRunning.val = (false, none)) ∧
      (newController (PodStore.failing ["etcd-1"] "store closed") ⟨[]⟩ ["etcd"]).AllRunning.val =
        (false, none) := by
  refine ⟨rfl, ?_, by decide⟩
  intro e he
  have hp : s.allPodsRunning.val = false := by
    rw [statusController.allPodsRunning_error s e he]
  rw [statusController.AllRunning_of_pods_false s hp]

/-- C3: short-circuit.  When pod readiness is false, `AllRunning` performs no read of the
node store, emits no report line about a node, leaves `lastNodeConditions` as it was, and
its result and effects are the same whatever the node store is. -/
theorem C3_AllRunning_short_circuit (s : statusController)
    (h : s.allPodsRunning.val = false) :
    (∀ ev ∈ s.AllRunning.events, ev.isNodeStoreRead = false ∧ ev.isNodeReport = false) ∧
      s.AllRunning.s.lastNodeConditions = s.lastNodeConditions ∧
      s.AllRunning.val = (false, none) ∧
      ∀ nodeStore : NodeStore,
        ({ s with nodeStore := nodeStore } : statusController).AllRunning.val =
            s.AllRunning.val ∧
          ({ s with nodeStore := nodeStore } : statusController).AllRunning.events =
            s.AllRunning.events ∧
          ({ s with nodeStore := nodeStore } : statusController).AllRunning.s.lastNodeConditions
            = s.lastNodeConditions := by
  have hall := statusController.AllRunning_of_pods_false s h
  refine ⟨?_, ?_, ?_, ?_⟩
  · rw [hall]
    simpa using statusController.allPodsRunning_events_no_node s
  · rw [hall]
    exact (statusController.allPodsRunning_podStore s).2.2.2
  · rw [hall]
  · intro nodeStore
    have h2 : ({ s with nodeStore := nodeStore } : statusController).allPodsRunning.val =
        false := by
      rw [statusController.allPodsRunning_nodeStore]
      exact h
    rw [statusController.AllRunning_of_pods_false _ h2, hall,
      statusController.allPodsRunning_nodeStore]
    exact ⟨rfl, rfl, (statusController.allPodsRunning_podStore s).2.2.2⟩

/-- Witness of C3: the watched pod is `Pending`, the node store holds a node that is not ready. -/
theorem C3_AllRunning_short_circuit_witness :
    (newController (PodStore.ofList [("etcd-1", mkPod "etcd-1" "Pending")])
        ⟨[mkNode "node1" [readyCondition "False" 0]]⟩ ["etcd"]).allPodsRunning.val = false ∧
      (newController (PodStore.ofList [("etcd-1", mkPod "etcd-1" "Pending")])
        ⟨[mkNode "node1" [readyCondition "False" 0]]⟩ ["etcd"]).AllRunning.s.lastNodeConditions
        = none :=
  ⟨by decide,
    (C3_AllRunning_short_circuit
      (newController (PodStore.ofList [("etcd-1", mkPod "etcd-1" "Pending")])
        ⟨[mkNode "node1" [readyCondition "False" 0]]⟩ ["etcd"]) (by decide)).2.1⟩

/-- C4: if `GetByKey` returns an error for the resolved key of some watched name, then
`PodStatus` returns the error of the first such lookup and no snapshot, `allPodsRunning`
returns false, `AllRunning` returns `(false, nil)`, no report line is emitted, the node
store is not read, and `lastPodPhases` and `lastNodeConditions` are left unchanged. -/
theorem C4_PodStatus_error (s : statusController)
    (h : ∃ w ∈ s.watchPods,
      (s.podStore.GetByKey (statusController.resolve s.podStore.ListKeys w)).err ≠ none) :
    ∃ before w after e, s.watchPods = before ++ w :: after ∧
      (∀ x ∈ before,
        (s.podStore.GetByKey (statusController.resolve s.podStore.ListKeys x)).err = none) ∧
      (s.podStore.GetByKey (statusController.resolve s.podStore.ListKeys w)).err = some e ∧
      s.PodStatus.val = .error e ∧
      s.allPodsRunning.val = false ∧
      s.AllRunning.val = (false, none) ∧
      (∀ ev ∈ s.AllRunning.events, ev.isReport = false ∧ ev.isNodeStoreRead = false) ∧
      s.AllRunning.s.lastPodPhases = s.lastPodPhases ∧
      s.AllRunning.s.lastNodeConditions = s.lastNodeConditions := by
  rcases statusController.lookupsOk_or_first s.podStore s.podStore.ListKeys s.watchPods with
    hok | ⟨before, w, after, e, hsplit, hb, hw⟩
  · obtain ⟨w, hw, hne⟩ := h
    exact absurd (hok w hw) hne
  · have hval : s.PodStatus.val = .error e := by
      rw [statusController.PodStatus_val, hsplit,
        statusController.PodStatus.loop_error s.podStore s.podStore.ListKeys before w after e
          GoMap.make hb hw]
    have hp := statusController.allPodsRunning_error s e hval
    have hpv : s.allPodsRunning.val = false := by rw [hp]
    have hall := statusController.AllRunning_of_pods_false s hpv
    refine ⟨before, w, after, e, hsplit, hb, hw, hval, hpv, ?_, ?_, ?_, ?_⟩
    · rw [hall]
    · rw [hall, hp]
      intro ev hev
      simp only [List.append_nil, List.mem_append, List.mem_singleton] at hev
      rcases hev with h1 | h1
      · rcases statusController.PodStatus_events_reads s ev h1 with h2 | ⟨key, h2⟩ <;>
          subst h2 <;> exact ⟨rfl, rfl⟩
      · subst h1
        exact ⟨rfl, rfl⟩
    · rw [hall, hp]
    · rw [hall, hp]

/-- Witness of C4: two watched names, the lookup of the second one fails. -/
theorem C4_PodStatus_error_witness :
    (∃ w ∈ (newController PodStore.failingBut ⟨[]⟩ ["etcd", "kube"]).watchPods,
      ((newController PodStore.failingBut ⟨[]⟩ ["etcd", "kube"]).podStore.GetByKey
        (statusController.resolve
          (newController PodStore.failingBut ⟨[]⟩ ["etcd", "kube"]).podStore.ListKeys w)).err
        ≠ none) ∧
    (newController PodStore.failingBut ⟨[]⟩ ["etcd", "kube"]).AllRunning.val = (false, none) ∧
    (newController PodStore.failingBut ⟨[]⟩ ["etcd", "kube"]).AllRunning.s.lastPodPhases =
      none := by
  have hyp : ∃ w ∈ (newController PodStore.failingBut ⟨[]⟩ ["etcd", "kube"]).watchPods,
      ((newController PodStore.failingBut ⟨[]⟩ ["etcd", "kube"]).podStore.GetByKey
        (statusController.resolve
          (newController PodStore.failingBut ⟨[]⟩ ["etcd", "kube"]).podStore.ListKeys w)).err
        ≠ none :=
    ⟨"kube", by decide, by decide⟩
  obtain ⟨_, _, _, _, _, _, _, _, _, hall, _, hlast, _⟩ :=
    C4_PodStatus_error (newController PodStore.failingBut ⟨[]⟩ ["etcd", "kube"]) hyp
  exact ⟨hyp, hall, hlast⟩

/-- C5: prefix resolution.  Let `k` be the first key of `ListKeys()` that has the watched name
`w` as a prefix (a key equal to `w` counts) and let a pod be stored under `k`.  Then every
snapshot that `PodStatus` returns binds `k` to the phase of that pod and has no entry under
`w` itself unless `w` is `k`; and `PodStatus` returns a snapshot when no lookup fails.  For
the watched name `"etcd"` and the keys `["etcd-abcde", "kube-scheduler-xyz"]` the snapshot
is exactly `{"etcd-abcde": phase of that pod}`. -/
theorem C5_PodStatus_prefix_resolution (s : statusController) (w k : String)
    (before after : List String) (p : corev1.Pod)
    (hw : w ∈ s.watchPods)
    (hkeys : s.podStore.ListKeys = before ++ k :: after)
    (hk : strings.HasPrefix k w = true)
    (hfirst : ∀ x ∈ before, strings.HasPrefix x w = false)
    (hget : s.podStore.GetByKey k = ⟨Obj.pod p, true, none⟩) :
    (∀ ps, s.PodStatus.val = .ok ps →
        ps.get? k = some p.Status.Phase ∧ (w ≠ k → ps.get? w = none)) ∧
      (s.podStore.lookupsDoNotFail → ∃ ps, s.PodStatus.val = .ok ps) ∧
      ∀ (pod other : corev1.Pod) (nodeStore : NodeStore),
        ∃ ps, (newController
            (PodStore.ofList [("etcd-abcde", pod), ("kube-scheduler-xyz", other)])
            nodeStore ["etcd"]).PodStatus.val = .ok ps ∧
          ps.entries = [("etcd-abcde", pod.Status.Phase)] := by
  refine ⟨?_, ?_, ?_⟩
  · intro ps hval
    have hres : statusController.resolve s.podStore.ListKeys w = k := by
      rw [hkeys]
      exact statusController.resolve_of_first before after k w hk hfirst
    have h2 := statusController.PodStatus_entries s ps hval
    constructor
    · rw [← GoMap.mem_entries_iff, h2]
      refine ⟨List.mem_map.mpr ⟨w, hw, hres⟩, ?_⟩
      exact statusController.PodStatus.entry_of_pod _ _ _ _ hget
    · intro hne
      cases hgw : ps.get? w with
      | none => rfl
      | some v =>
        exfalso
        obtain ⟨hmem, _⟩ := (h2 w v).mp ((GoMap.mem_entries_iff ps w v).mpr hgw)
        obtain ⟨w2, _, hw2⟩ := List.mem_map.mp hmem
        have := statusController.resolve_resolve s.podStore.ListKeys w2
        rw [hw2, hres] at this
        exact hne this.symm
  · intro hok
    obtain ⟨ps, h1, _⟩ :=
      statusController.PodStatus_ok s (statusController.lookupsOk_of_store s hok)
    exact ⟨ps, h1⟩
  · intro pod other nodeStore
    have h1 : strings.HasPrefix "etcd-abcde" "etcd" = true := by decide
    refine ⟨(GoMap.make : GoMap corev1.PodPhase).set "etcd-abcde" pod.Status.Phase, ?_, rfl⟩
    simp [statusController.PodStatus, statusController.PodStatus.loop,
      statusController.resolve, newController, PodStore.ofList, assocGet, h1]

/-- Witness of C5 at the example of the specification, with a running pod. -/
theorem C5_PodStatus_prefix_resolution_witness :
    "etcd" ∈ ["etcd"] ∧ strings.HasPrefix "etcd-abcde" "etcd" = true ∧
    (PodStore.ofList [("etcd-abcde", mkPod "etcd-abcde" "Running"),
        ("kube-scheduler-xyz", mkPod "kube-scheduler-xyz" "Pending")]).GetByKey "etcd-abcde" =
      ⟨Obj.pod (mkPod "etcd-abcde" "Running"), true, none⟩ ∧
    ∃ ps, (newController
        (PodStore.ofList [("etcd-abcde", mkPod "etcd-abcde" "Running"),
          ("kube-scheduler-xyz", mkPod "kube-scheduler-xyz" "Pending")])
        ⟨[]⟩ ["etcd"]).PodStatus.val = .ok ps ∧
      ps.get? "etcd-abcde" = some "Running" ∧
      ("etcd" ≠ "etcd-abcde" → ps.get? "etcd" = none) := by
  have h := C5_PodStatus_prefix_resolution
    (newController
      (PodStore.ofList [("etcd-abcde", mkPod "etcd-abcde" "Running"),
        ("kube-scheduler-xyz", mkPod "kube-scheduler-xyz" "Pending")])
      ⟨[]⟩ ["etcd"])
    "etcd" "etcd-abcde" [] ["kube-scheduler-xyz"] (mkPod "etcd-abcde" "Running")
    (by decide) rfl (by decide) (by intro x hx; cases hx) (by decide)
  obtain ⟨ps, hval⟩ := h.2.1 (PodStore.ofList_lookupsDoNotFail _)
  exact ⟨by decide, by decide, by decide, ps, hval, h.1 ps hval⟩

/-- C6, as stated, fails where a stored pod has the sentinel string as its phase: the store
agrees and holds under `"etcd-1"` a pod whose phase is `"DoesNotExist"`, the watched name is
`"etcd"`.  The snapshot is `{"etcd-1": "DoesNotExist"}`: its entry has the value
`"DoesNotExist"`, yet `"etcd-1"` is no watched name, and the watched name it stands for has a
key with that prefix. -/
theorem C6_missing_pod_counterexample :
    (PodStore.ofList [("etcd-1", mkPod "etcd-1" "DoesNotExist")]).agree ∧
    (PodStore.ofList [("etcd-1", mkPod "etcd-1" "DoesNotExist")]).lookupsDoNotFail ∧
    (∃ ps, (newController (PodStore.ofList [("etcd-1", mkPod "etcd-1" "DoesNotExist")])
        ⟨[]⟩ ["etcd"]).PodStatus.val = .ok ps ∧
      ps.entries = [("etcd-1", doesNotExist)]) ∧
    "etcd-1" ∉ ["etcd"] ∧
    strings.HasPrefix "etcd-1" "etcd" = true ∧
    ¬ (∀ x ∈ (PodStore.ofList [("etcd-1", mkPod "etcd-1" "DoesNotExist")]).ListKeys,
      strings.HasPrefix x "etcd" = false) :=
  ⟨PodStore.ofList_agree _, PodStore.ofList_lookupsDoNotFail _, ⟨_, rfl, rfl⟩,
    by decide, by decide, by decide⟩

/-- C6, amended.  Let `w` be a watched name that no key of the pod store has as a prefix: no
key of `ListKeys()`, and `GetByKey` finds nothing under `w`.  Then every snapshot that
`PodStatus` returns contains the entry `w -> "DoesNotExist"`, keyed by the watched name
itself, a snapshot is returned when no lookup fails, and `AllRunning` returns false.
Conversely, when `ListKeys` and `GetByKey` agree and no stored pod has the string
`"DoesNotExist"` itself as its phase, every entry with the value `"DoesNotExist"` of a
snapshot that `PodStatus` returns is keyed by a watched name that no key has as a prefix. -/
theorem C6_missing_pod (s : statusController) :
    (∀ w ∈ s.watchPods, (∀ x ∈ s.podStore.ListKeys, strings.HasPrefix x w = false) →
      (s.podStore.GetByKey w).«exists» = false →
        (∀ ps, s.PodStatus.val = .ok ps → ps.get? w = some doesNotExist) ∧
        (s.podStore.lookupsDoNotFail → ∃ ps, s.PodStatus.val = .ok ps) ∧
        s.AllRunning.val = (false, none)) ∧
    (s.podStore.agree → s.podStore.noSentinelPhase →
      ∀ ps, s.PodStatus.val = .ok ps → ∀ k, ps.get? k = some doesNotExist →
        k ∈ s.watchPods ∧ ∀ x ∈ s.podStore.ListKeys, strings.HasPrefix x k = false) := by
  constructor
  · intro w hw hnone habs
    have hres := statusController.resolve_of_none s.podStore.ListKeys w hnone
    have hent : statusController.PodStatus.entry s.podStore w = some doesNotExist := by
      simp [statusController.PodStatus.entry, habs]
    have hmem : w ∈ s.watchPods.map (statusController.resolve s.podStore.ListKeys) :=
      List.mem_map.mpr ⟨w, hw, hres⟩
    refine ⟨?_, ?_, ?_⟩
    · intro ps hval
      exact (GoMap.mem_entries_iff ps w doesNotExist).mp
        ((statusController.PodStatus_entries s ps hval w doesNotExist).mpr ⟨hmem, hent⟩)
    · intro hok
      obtain ⟨ps, h1, _⟩ :=
        statusController.PodStatus_ok s (statusController.lookupsOk_of_store s hok)
      exact ⟨ps, h1⟩
    · have hp : s.allPodsRunning.val = false := by
        cases hval : s.PodStatus.val with
        | error e => exact statusController.allPodsRunning_false_of_error s e hval
        | ok ps =>
          exact statusController.allPodsRunning_false_of_entry s ps hval w doesNotExist
            ((statusController.PodStatus_entries s ps hval w doesNotExist).mpr ⟨hmem, hent⟩)
            (by decide)
      rw [statusController.AllRunning_of_pods_false s hp]
  · intro hagree hsent ps hval k hk
    obtain ⟨hmem, hent⟩ := (statusController.PodStatus_entries s ps hval k doesNotExist).mp
      ((GoMap.mem_entries_iff ps k doesNotExist).mpr hk)
    obtain ⟨w, hw, hwk⟩ := List.mem_map.mp hmem
    have habs : (s.podStore.GetByKey k).«exists» = false := by
      cases hex : (s.podStore.GetByKey k).«exists» with
      | false => rfl
      | true =>
        exfalso
        simp only [statusController.PodStatus.entry, hex, Bool.not_true, Bool.false_eq_true,
          if_false] at hent
        cases hit : (s.podStore.GetByKey k).item with
        | pod p =>
          rw [hit] at hent
          exact hsent k p hit (Option.some.inj hent)
        | nil => rw [hit] at hent; exact Option.noConfusion hent
        | node n => rw [hit] at hent; exact Option.noConfusion hent
        | other t => rw [hit] at hent; exact Option.noConfusion hent
    have hnot : k ∉ s.podStore.ListKeys := by
      intro hin
      have := (hagree k).mpr hin
      rw [habs] at this
      exact Bool.noConfusion this
    rcases statusController.resolve_spec s.podStore.ListKeys w with
      ⟨before, after, h1, _, _⟩ | ⟨h1, h2⟩
    · exfalso
      apply hnot
      have hin : statusController.resolve s.podStore.ListKeys w ∈
          before ++ statusController.resolve s.podStore.ListKeys w :: after := by simp
      rw [← h1, hwk] at hin
      exact hin
    · rw [hwk] at h1
      rw [h1]
      exact ⟨hw, h2⟩

/-- C7: for every node store `NodeStatus` returns a map (and a nil error) whose keys are
exactly the names of the stored nodes that have at least one condition of type `Ready`;
every value is the first condition of type `Ready` of a stored node of that name, and, the
names of the stored nodes being distinct, the value for each such node is the first `Ready`
condition of that node's list (later ones are ignored).  Nodes without a `Ready` condition
are omitted: dropping them from the store changes neither the snapshot nor what `AllRunning`
returns. -/
theorem C7_NodeStatus_snapshot (s : statusController) :
    ∃ ns, s.NodeStatus.val = .ok ns ∧
      (∀ name, (∃ c, ns.get? name = some c) ↔
        ∃ n ∈ s.nodeStore.List, n.Name = name ∧
          ∃ c ∈ n.Status.Conditions, c.«Type» = corev1.NodeReady) ∧
      (∀ name c, ns.get? name = some c →
        ∃ n ∈ s.nodeStore.List, n.Name = name ∧
          IsFirstReady n.Status.Conditions c) ∧
      ((s.nodeStore.List.map corev1.Node.Name).Nodup →
        ∀ n ∈ s.nodeStore.List, ∀ c,
          IsFirstReady n.Status.Conditions c → ns.get? n.Name = some c) ∧
      ({ s with nodeStore := ⟨s.nodeStore.List.filter hasReady⟩ } :
          statusController).NodeStatus.val = .ok ns ∧
      ({ s with nodeStore := ⟨s.nodeStore.List.filter hasReady⟩ } :
          statusController).AllRunning.val = s.AllRunning.val := by
  refine ⟨statusController.NodeStatus.loop s.nodeStore.List GoMap.make, rfl, ?_, ?_, ?_, ?_, ?_⟩
  · intro name
    have h := statusController.NodeStatus.loop_isSome s.nodeStore.List GoMap.make name
    rw [GoMap.get?_make] at h
    simp only [Option.isSome_none, Bool.false_or] at h
    rw [← Option.isSome_iff_exists, h, List.any_eq_true]
    constructor
    · rintro ⟨n, hn, hcond⟩
      simp only [Bool.and_eq_true, decide_eq_true_eq] at hcond
      exact ⟨n, hn, hcond.1, (statusController.hasReady_iff n).mp hcond.2⟩
    · rintro ⟨n, hn, hname, hc⟩
      refine ⟨n, hn, ?_⟩
      simp only [Bool.and_eq_true, decide_eq_true_eq]
      exact ⟨hname, (statusController.hasReady_iff n).mpr hc⟩
  · intro name c hget
    rcases statusController.NodeStatus.loop_get?_some _ _ name c hget with h | ⟨n, hn, h1, h2⟩
    · rw [GoMap.get?_make] at h
      exact Option.noConfusion h
    · exact ⟨n, hn, h1, (statusController.NodeStatus.firstReady_eq_some _ _).mp h2⟩
  · intro hnodup n hn c hc
    obtain ⟨before, after, hsplit⟩ := List.append_of_mem hn
    rw [hsplit]
    apply statusController.NodeStatus.loop_get?_last before n after GoMap.make c
      ((statusController.NodeStatus.firstReady_eq_some _ _).mpr hc)
    intro m hm hname
    exfalso
    rw [hsplit, List.map_append, List.map_cons] at hnodup
    have h2 := (List.nodup_cons.mp (List.nodup_append.mp hnodup).2.1).1
    apply h2
    rw [← hname]
    exact List.mem_map.mpr ⟨m, hm, rfl⟩
  · simp only [statusController.NodeStatus_val, statusController.NodeStatus.loop_filter]
  · rw [statusController.AllRunning_val, statusController.AllRunning_val s]
    have hp := statusController.allPodsRunning_nodeStore s
      ⟨s.nodeStore.List.filter hasReady⟩
    rw [hp]
    simp only [statusController.NodeStatus.loop_filter]

/-- Instance of C7: the first node has two `Ready` conditions after another condition, the
second node has no `Ready` condition; the snapshot binds only `"node1"`, to the first of its
`Ready` conditions. -/
theorem C7_NodeStatus_snapshot_witness :
    (([mkNode "node1" [⟨"MemoryPressure", "False", 0, 0, "", ""⟩, readyCondition "True" 1,
          readyCondition "False" 2],
        mkNode "node2" [⟨"MemoryPressure", "False", 0, 0, "", ""⟩]].map
          corev1.Node.Name).Nodup) ∧
      ∃ ns, (newController (PodStore.ofList [])
          ⟨[mkNode "node1" [⟨"MemoryPressure", "False", 0, 0, "", ""⟩, readyCondition "True" 1,
              readyCondition "False" 2],
            mkNode "node2" [⟨"MemoryPressure", "False", 0, 0, "", ""⟩]]⟩ []).NodeStatus.val =
          .ok ns ∧
        ns.get? "node1" = some (readyCondition "True" 1) ∧ ns.get? "node2" = none := by
  have hnodup : ([mkNode "node1" [⟨"MemoryPressure", "False", 0, 0, "", ""⟩,
        readyCondition "True" 1, readyCondition "False" 2],
      mkNode "node2" [⟨"MemoryPressure", "False", 0, 0, "", ""⟩]].map
        corev1.Node.Name).Nodup := by decide
  obtain ⟨ns, hval, hkeys, _, hvalue, _⟩ := C7_NodeStatus_snapshot
    (newController (PodStore.ofList [])
      ⟨[mkNode "node1" [⟨"MemoryPressure", "False", 0, 0, "", ""⟩, readyCondition "True" 1,
          readyCondition "False" 2],
        mkNode "node2" [⟨"MemoryPressure", "False", 0, 0, "", ""⟩]]⟩ [])
  refine ⟨hnodup, ns, hval, ?_, ?_⟩
  · exact hvalue hnodup (mkNode "node1" [⟨"MemoryPressure", "False", 0, 0, "", ""⟩,
        readyCondition "True" 1, readyCondition "False" 2]) (by simp [newController]) _
      ⟨[⟨"MemoryPressure", "False", 0, 0, "", ""⟩], [readyCondition "False" 2], rfl, rfl,
        by decide⟩
  · cases hg : ns.get? "node2" with
    | none => rfl
    | some c =>
      exfalso
      obtain ⟨n, hn, hname, c2, hc2, hty⟩ := (hkeys "node2").mp ⟨c, hg⟩
      simp only [newController, List.mem_cons, List.mem_singleton, List.not_mem_nil,
        or_false] at hn
      rcases hn with h | h
      · subst h
        exact absurd hname (by decide)
      · subst h
        simp only [mkNode, List.mem_singleton] at hc2
        subst hc2
        exact absurd hty (by decide)

/-- C8: change detection.  With a stored previous snapshot `S1` and the newly computed
snapshot `S2`, `allPodsRunning` (pods) and `allNodesReady` (nodes) emit no report line when
`S1` and `S2` bind the same keys to the same values, and otherwise exactly one report line
for each entry of `S2`, whatever the values of the entries are. -/
theorem C8_change_detection (s : statusController) :
    (∀ S1 S2, s.lastPodPhases = some S1 → s.PodStatus.val = .ok S2 →
      ((∀ k, S1.get? k = S2.get? k) →
        s.allPodsRunning.events.filter Event.isReport = []) ∧
      (¬ (∀ k, S1.get? k = S2.get? k) →
        s.allPodsRunning.events.filter Event.isReport =
          S2.entries.map (fun kv => Event.podReport kv.1 kv.2))) ∧
    (∀ S1 S2, s.lastNodeConditions = some S1 → s.NodeStatus.val = .ok S2 →
      ((∀ k, S1.get? k = S2.get? k) →
        s.allNodesReady.events.filter Event.isReport = []) ∧
      (¬ (∀ k, S1.get? k = S2.get? k) →
        s.allNodesReady.events.filter Event.isReport =
          S2.entries.map (fun kv => Event.nodeReport kv.1 kv.2))) := by
  constructor
  · intro S1 S2 hlast hval
    rw [statusController.allPodsRunning_reports s S2 hval, hlast]
    constructor
    · intro heq
      have : S2.deepEqual S1 = true := (GoMap.deepEqual_iff S2 S1).mpr (fun k => (heq k).symm)
      simp [this]
    · intro hne
      have : ¬ S2.deepEqual S1 = true := by
        intro hd
        exact hne (fun k => ((GoMap.deepEqual_iff S2 S1).mp hd k).symm)
      simp [this]
  · intro S1 S2 hlast hval
    rw [statusController.NodeStatus_val] at hval
    cases hval
    rw [statusController.allNodesReady_reports s, hlast]
    constructor
    · intro heq
      have : (statusController.NodeStatus.loop s.nodeStore.List GoMap.make).deepEqual S1 = true :=
        (GoMap.deepEqual_iff _ S1).mpr (fun k => (heq k).symm)
      simp [this]
    · intro hne
      have : ¬ (statusController.NodeStatus.loop s.nodeStore.List GoMap.make).deepEqual S1
          = true := by
        intro hd
        exact hne (fun k => ((GoMap.deepEqual_iff _ S1).mp hd k).symm)
      simp [this]

/-- C9, as stated, fails on the first evaluation after construction: nothing is remembered,
the pod snapshot has one entry and so has the node snapshot, and `AllRunning` emits no report
line at all. -/
theorem C9_first_evaluation_counterexample :
    (newController (PodStore.ofList [("etcd-1", mkPod "etcd-1" "Pending")])
        ⟨[mkNode "node1" [readyCondition "True" 0]]⟩ ["etcd"]).lastPodPhases = none ∧
    (∃ ps, (newController (PodStore.ofList [("etcd-1", mkPod "etcd-1" "Pending")])
        ⟨[mkNode "node1" [readyCondition "True" 0]]⟩ ["etcd"]).PodStatus.val = .ok ps ∧
      ps.entries = [("etcd-1", "Pending")]) ∧
    (newController (PodStore.ofList [("etcd-1", mkPod "etcd-1" "Pending")])
        ⟨[mkNode "node1" [readyCondition "True" 0]]⟩ ["etcd"]).allPodsRunning.events.filter
      Event.isReport = [] ∧
    (newController (PodStore.ofList [("etcd-1", mkPod "etcd-1" "Running")])
        ⟨[mkNode "node1" [readyCondition "True" 0]]⟩ ["etcd"]).lastNodeConditions = none ∧
    (∃ ns, (newController (PodStore.ofList [("etcd-1", mkPod "etcd-1" "Running")])
        ⟨[mkNode "node1" [readyCondition "True" 0]]⟩ ["etcd"]).NodeStatus.val = .ok ns ∧
      ns.entries = [("node1", readyCondition "True" 0)]) ∧
    (newController (PodStore.ofList [("etcd-1", mkPod "etcd-1" "Running")])
        ⟨[mkNode "node1" [readyCondition "True" 0]]⟩ ["etcd"]).AllRunning.events.filter
      Event.isReport = [] := by
  refine ⟨rfl, ⟨_, rfl, rfl⟩, by decide, rfl, ⟨_, rfl, rfl⟩, by decide⟩

/-- C9, amended: when no previous snapshot exists (`lastPodPhases`, respectively
`lastNodeConditions`, is nil), the newly computed snapshot is first taken as the previous
one, so that it compares equal to it: the evaluation emits no report line, and stores the
snapshot as the last snapshot. -/
theorem C9_first_evaluation (s : statusController) :
    (s.lastPodPhases = none → ∀ ps, s.PodStatus.val = .ok ps →
      s.allPodsRunning.events.filter Event.isReport = [] ∧
        s.allPodsRunning.s.lastPodPhases = some ps) ∧
    (s.lastNodeConditions = none → ∀ ns, s.NodeStatus.val = .ok ns →
      s.allNodesReady.events.filter Event.isReport = [] ∧
        s.allNodesReady.s.lastNodeConditions = some ns) := by
  constructor
  · intro hlast ps hval
    constructor
    · rw [statusController.allPodsRunning_reports s ps hval, hlast]
    · rw [statusController.allPodsRunning_ok s ps hval]
  · intro hlast ns hval
    rw [statusController.NodeStatus_val] at hval
    cases hval
    constructor
    · rw [statusController.allNodesReady_reports s, hlast]
    · rw [statusController.allNodesReady_eq s]

/-- C10: vacuous truth.  With an empty list of watched pods `allPodsRunning` returns true for
every pod store; with a node store in which no node has a `Ready` condition (an empty node
store in particular) `allNodesReady` returns true; with both, `AllRunning` returns
`(true, nil)`. -/
theorem C10_vacuous_truth (s : statusController) :
    (s.watchPods = [] → s.allPodsRunning.val = true) ∧
    ((∀ n ∈ s.nodeStore.List, ∀ c ∈ n.Status.Conditions, c.«Type» ≠ corev1.NodeReady) →
      s.allNodesReady.val = true) ∧
    (s.nodeStore.List = [] → s.allNodesReady.val = true) ∧
    (s.watchPods = [] →
      (∀ n ∈ s.nodeStore.List, ∀ c ∈ n.Status.Conditions, c.«Type» ≠ corev1.NodeReady) →
        s.AllRunning.val = (true, none)) := by
  have hpods : s.watchPods = [] → s.allPodsRunning.val = true := by
    intro hw
    have hval : s.PodStatus.val = .ok GoMap.make := by
      rw [statusController.PodStatus_val, hw]
      rfl
    rw [statusController.allPodsRunning_ok s _ hval]
    rfl
  have hloop : (∀ n ∈ s.nodeStore.List, ∀ c ∈ n.Status.Conditions,
      c.«Type» ≠ corev1.NodeReady) →
      statusController.NodeStatus.loop s.nodeStore.List GoMap.make = GoMap.make := by
    intro hno
    have hfilter : s.nodeStore.List.filter hasReady = [] := by
      rw [List.filter_eq_nil_iff]
      intro n hn hr
      obtain ⟨c, hc, hty⟩ := (statusController.hasReady_iff n).mp hr
      exact hno n hn c hc hty
    rw [← statusController.NodeStatus.loop_filter, hfilter]
    rfl
  have hnodes : (∀ n ∈ s.nodeStore.List, ∀ c ∈ n.Status.Conditions,
      c.«Type» ≠ corev1.NodeReady) → s.allNodesReady.val = true := by
    intro hno
    rw [statusController.allNodesReady_eq s, hloop hno]
    rfl
  refine ⟨hpods, hnodes, ?_, ?_⟩
  · intro hempty
    apply hnodes
    intro n hn
    rw [hempty] at hn
    cases hn
  · intro hw hno
    rw [statusController.AllRunning_val, hpods hw, hloop hno]
    rfl

/-- Instance of C2 at a pod store whose every lookup fails. -/
theorem C2_AllRunning_error_nil_witness :
    (newController (PodStore.failing ["etcd-1"] "store closed") ⟨[]⟩ ["etcd"]).PodStatus.val =
        .error "store closed" ∧
      (newController (PodStore.failing ["etcd-1"] "store closed") ⟨[]⟩ ["etcd"]).AllRunning.val =
        (false, none) :=
  ⟨rfl, (C2_AllRunning_error_nil
    (newController (PodStore.failing ["etcd-1"] "store closed") ⟨[]⟩ ["etcd"])).2.1
      "store closed" rfl⟩

/-- Instance of C6, amended, at the missing-pod example of the specification: the store holds
a running pod under `"etcd-1"` and the watched name is `"missing-pod"`. -/
theorem C6_missing_pod_witness :
    (∀ x ∈ ["etcd-1"], strings.HasPrefix x "missing-pod" = false) ∧
    ((PodStore.ofList [("etcd-1", mkPod "etcd-1" "Running")]).GetByKey "missing-pod").«exists»
      = false ∧
    (PodStore.ofList [("etcd-1", mkPod "etcd-1" "Running")]).lookupsDoNotFail ∧
    (PodStore.ofList [("etcd-1", mkPod "etcd-1" "Running")]).agree ∧
    (PodStore.ofList [("etcd-1", mkPod "etcd-1" "Running")]).noSentinelPhase ∧
    (newController (PodStore.ofList [("etcd-1", mkPod "etcd-1" "Running")]) ⟨[]⟩
      ["missing-pod"]).AllRunning.val = (false, none) ∧
    (∃ ps, (newController (PodStore.ofList [("etcd-1", mkPod "etcd-1" "Running")]) ⟨[]⟩
        ["missing-pod"]).PodStatus.val = .ok ps ∧
      ps.get? "missing-pod" = some doesNotExist ∧
      ∀ k, ps.get? k = some doesNotExist →
        k ∈ ["missing-pod"] ∧ ∀ x ∈ ["etcd-1"], strings.HasPrefix x k = false) := by
  have hno : ∀ x ∈ ["etcd-1"], strings.HasPrefix x "missing-pod" = false := by decide
  have habs : ((PodStore.ofList [("etcd-1", mkPod "etcd-1" "Running")]).GetByKey
      "missing-pod").«exists» = false := by decide
  have hok := PodStore.ofList_lookupsDoNotFail [("etcd-1", mkPod "etcd-1" "Running")]
  have hagree := PodStore.ofList_agree [("etcd-1", mkPod "etcd-1" "Running")]
  have hsent := PodStore.ofList_noSentinelPhase [("etcd-1", mkPod "etcd-1" "Running")]
    (by decide)
  have h := C6_missing_pod
    (newController (PodStore.ofList [("etcd-1", mkPod "etcd-1" "Running")]) ⟨[]⟩
      ["missing-pod"])
  obtain ⟨hsnap, hret, hfalse⟩ := h.1 "missing-pod" (by decide) hno habs
  obtain ⟨ps, hval⟩ := hret hok
  exact ⟨hno, habs, hok, hagree, hsent, hfalse, ps, hval, hsnap ps hval,
    h.2 hagree hsent ps hval⟩

/-- Instance of C8: the remembered pod snapshot binds `"etcd-1"` to `"Pending"` and the new
one binds it to `"Running"`, so one line is reported; on the evaluation after that the
snapshots are equal and nothing is reported. -/
theorem C8_change_detection_witness :
    (statusController.mk (PodStore.ofList [("etcd-1", mkPod "etcd-1" "Running")]) ⟨[]⟩ ["etcd"]
        (some (GoMap.make.set "etcd-1" "Pending")) none).allPodsRunning.events.filter
        Event.isReport = [Event.podReport "etcd-1" "Running"] ∧
    (statusController.mk (PodStore.ofList [("etcd-1", mkPod "etcd-1" "Running")]) ⟨[]⟩ ["etcd"]
        (some (GoMap.make.set "etcd-1" "Running")) none).allPodsRunning.events.filter
        Event.isReport = [] :=
  ⟨((C8_change_detection
      (statusController.mk (PodStore.ofList [("etcd-1", mkPod "etcd-1" "Running")]) ⟨[]⟩
        ["etcd"] (some (GoMap.make.set "etcd-1" "Pending")) none)).1
      (GoMap.make.set "etcd-1" "Pending") (GoMap.make.set "etcd-1" "Running") rfl rfl).2
      (fun h => absurd (h "etcd-1") (by decide)),
    ((C8_change_detection
      (statusController.mk (PodStore.ofList [("etcd-1", mkPod "etcd-1" "Running")]) ⟨[]⟩
        ["etcd"] (some (GoMap.make.set "etcd-1" "Running")) none)).1
      (GoMap.make.set "etcd-1" "Running") (GoMap.make.set "etcd-1" "Running") rfl rfl).1
      (fun _ => rfl)⟩

/-- Instance of C9, amended, at a freshly built controller. -/
theorem C9_first_evaluation_witness :
    (newController (PodStore.ofList [("etcd-1", mkPod "etcd-1" "Pending")])
        ⟨[mkNode "node1" [readyCondition "True" 0]]⟩ ["etcd"]).allPodsRunning.events.filter
        Event.isReport = [] ∧
      (newController (PodStore.ofList [("etcd-1", mkPod "etcd-1" "Pending")])
        ⟨[mkNode "node1" [readyCondition "True" 0]]⟩ ["etcd"]).allPodsRunning.s.lastPodPhases =
        some (GoMap.make.set "etcd-1" "Pending") :=
  (C9_first_evaluation
    (newController (PodStore.ofList [("etcd-1", mkPod "etcd-1" "Pending")])
      ⟨[mkNode "node1" [readyCondition "True" 0]]⟩ ["etcd"])).1 rfl
    (GoMap.make.set "etcd-1" "Pending") rfl

/-- Instance of C10: nothing is watched and the only node has no `Ready` condition. -/
theorem C10_vacuous_truth_witness :
    (∀ n ∈ [mkNode "node1" [⟨"MemoryPressure", "False", 0, 0, "", ""⟩]],
      ∀ c ∈ n.Status.Conditions, c.«Type» ≠ corev1.NodeReady) ∧
    (newController (PodStore.ofList [("etcd-1", mkPod "etcd-1" "Pending")])
      ⟨[mkNode "node1" [⟨"MemoryPressure", "False", 0, 0, "", ""⟩]]⟩ []).AllRunning.val =
      (true, none) :=
  ⟨by decide,
    (C10_vacuous_truth
      (newController (PodStore.ofList [("etcd-1", mkPod "etcd-1" "Pending")])
        ⟨[mkNode "node1" [⟨"MemoryPressure", "False", 0, 0, "", ""⟩]]⟩ [])).2.2.2 rfl
      (by decide)⟩

/-! ## Readiness as a function of the snapshots -/

namespace statusController

/-- Method `PodStatus` reads only the pod store and the watched names. -/
theorem PodStatus_congr (s1 s2 : statusController) (hp : s1.podStore = s2.podStore)
    (hw : s1.watchPods = s2.watchPods) :
    s1.PodStatus.val = s2.PodStatus.val ∧ s1.PodStatus.events = s2.PodStatus.events := by
  simp only [PodStatus, hp, hw, and_self]

/-- Pod readiness is false exactly when `PodStatus` fails or some entry is not `Running`. -/
theorem allPodsRunning_eq_false_iff (s : statusController) :
    s.allPodsRunning.val = false ↔
      (∃ e, s.PodStatus.val = .error e) ∨
        ∃ ps, s.PodStatus.val = .ok ps ∧ ∃ kv ∈ ps.entries, kv.2 ≠ corev1.PodRunning := by
  cases hval : s.PodStatus.val with
  | error e =>
    rw [allPodsRunning_error s e hval]
    simp
  | ok ps =>
    rw [allPodsRunning_ok s ps hval]
    simp only [List.all_eq_false, decide_eq_true_eq, false_or, Except.ok.injEq,
      exists_eq_left', reduceCtorEq, exists_false]

/-- The state that `allPodsRunning` leaves when `PodStatus` returns a snapshot. -/
theorem allPodsRunning_s_ok (s : statusController) (ps : GoMap corev1.PodPhase)
    (h : s.PodStatus.val = .ok ps) :
    s.allPodsRunning.s = { s with lastPodPhases := some ps } := by
  rw [allPodsRunning_ok s ps h]

/-- The state that `allPodsRunning` leaves when `PodStatus` fails. -/
theorem allPodsRunning_s_error (s : statusController) (e : Error)
    (h : s.PodStatus.val = .error e) : s.allPodsRunning.s = s := by
  rw [allPodsRunning_error s e h]

/-- The value of `allPodsRunning` when `PodStatus` returns a snapshot. -/
theorem allPodsRunning_val_ok (s : statusController) (ps : GoMap corev1.PodPhase)
    (h : s.PodStatus.val = .ok ps) :
    s.allPodsRunning.val = ps.entries.all (fun kv => decide (kv.2 = corev1.PodRunning)) := by
  rw [allPodsRunning_ok s ps h]

/-- The state that `AllRunning` leaves. -/
theorem AllRunning_s (s : statusController) :
    s.AllRunning.s =
      if s.allPodsRunning.val = true then
        { s.allPodsRunning.s with
          lastNodeConditions := some (NodeStatus.loop s.nodeStore.List GoMap.make) }
      else s.allPodsRunning.s := by
  cases hp : s.allPodsRunning.val with
  | false => rw [AllRunning_of_pods_false s hp]; simp
  | true =>
    have hn := (allPodsRunning_podStore s).2.1
    rw [AllRunning_of_pods_true s hp, allNodesReady_eq]
    simp only [hn, if_true]

end statusController

/-- C11, as stated, fails where both snapshots are empty: nothing is watched and the node
store is empty, the pod snapshot and the node snapshot have no entries, and `AllRunning`
returns `(true, nil)`. -/
theorem C11_empty_snapshot_counterexample :
    (∃ ps, (newController (PodStore.ofList []) ⟨[]⟩ []).PodStatus.val = .ok ps ∧
      ps.entries = []) ∧
    (∃ ns, (newController (PodStore.ofList []) ⟨[]⟩ []).NodeStatus.val = .ok ns ∧
      ns.entries = []) ∧
    (newController (PodStore.ofList []) ⟨[]⟩ []).AllRunning.val = (true, none) :=
  ⟨⟨_, rfl, rfl⟩, ⟨_, rfl, rfl⟩, by decide⟩

/-- C11, amended: `AllRunning` returns false exactly when the pod snapshot cannot be built,
or an entry of the pod snapshot is not `Running`, or an entry of the node snapshot is not
`True`.  An empty snapshot is no reason for false: with an empty pod snapshot the result is
the node readiness, with an empty node snapshot it is the pod readiness, and with both
empty it is `(true, nil)`. -/
theorem C11_empty_snapshot (s : statusController) :
    (s.AllRunning.val.1 = false ↔
      (∃ e, s.PodStatus.val = .error e) ∨
        (∃ ps, s.PodStatus.val = .ok ps ∧ ∃ kv ∈ ps.entries, kv.2 ≠ corev1.PodRunning) ∨
        (∃ ns, s.NodeStatus.val = .ok ns ∧
          ∃ kv ∈ ns.entries, kv.2.Status ≠ corev1.ConditionTrue)) ∧
    (∀ ps ns, s.PodStatus.val = .ok ps → s.NodeStatus.val = .ok ns →
      (ps.entries = [] → s.AllRunning.val.1 =
        ns.entries.all (fun kv => decide (kv.2.Status = corev1.ConditionTrue))) ∧
      (ns.entries = [] → s.AllRunning.val.1 =
        ps.entries.all (fun kv => decide (kv.2 = corev1.PodRunning))) ∧
      (ps.entries = [] → ns.entries = [] → s.AllRunning.val = (true, none))) := by
  constructor
  · rw [statusController.AllRunning_val]
    simp only [Bool.and_eq_false_iff, statusController.allPodsRunning_eq_false_iff,
      statusController.NodeStatus_val, Except.ok.injEq, exists_eq_left', List.all_eq_false,
      decide_eq_true_eq, or_assoc]
  · intro ps ns hps hns
    rw [statusController.NodeStatus_val] at hns
    cases hns
    rw [statusController.AllRunning_val, statusController.allPodsRunning_val_ok s ps hps]
    refine ⟨?_, ?_, ?_⟩
    · intro h
      simp [h]
    · intro h
      simp [h]
    · intro h1 h2
      simp [h1, h2]

/-- Instance of C11, amended: the only watched pod is running and the node store is empty,
so the node snapshot is empty and `AllRunning` returns true. -/
theorem C11_empty_snapshot_witness :
    (∃ ns, (newController (PodStore.ofList [("etcd-1", mkPod "etcd-1" "Running")]) ⟨[]⟩
        ["etcd"]).NodeStatus.val = .ok ns ∧ ns.entries = []) ∧
    (newController (PodStore.ofList [("etcd-1", mkPod "etcd-1" "Running")]) ⟨[]⟩
        ["etcd"]).AllRunning.val.1 = true :=
  ⟨⟨_, rfl, rfl⟩,
    (((C11_empty_snapshot
      (newController (PodStore.ofList [("etcd-1", mkPod "etcd-1" "Running")]) ⟨[]⟩
        ["etcd"])).2 (GoMap.make.set "etcd-1" "Running") GoMap.make rfl rfl).2.1 rfl).trans
      (by decide)⟩

/-- C12: whenever `allPodsRunning` (respectively `allNodesReady`) builds its snapshot without
error, `lastPodPhases` (respectively `lastNodeConditions`) is that snapshot after the call,
whatever was remembered before: nothing, an equal snapshot or a different one. -/
theorem C12_last_snapshot_overwritten (s : statusController) :
    (∀ ps, s.PodStatus.val = .ok ps → s.allPodsRunning.s.lastPodPhases = some ps) ∧
    (∀ ns, s.NodeStatus.val = .ok ns → s.allNodesReady.s.lastNodeConditions = some ns) := by
  constructor
  · intro ps hps
    rw [statusController.allPodsRunning_s_ok s ps hps]
  · intro ns hns
    rw [statusController.NodeStatus_val] at hns
    cases hns
    rw [statusController.allNodesReady_eq]

/-- Instance of C12: the remembered pod snapshot differs from the new one in the first
controller and equals it in the second; both end with the new snapshot. -/
theorem C12_last_snapshot_overwritten_witness :
    (statusController.mk (PodStore.ofList [("etcd-1", mkPod "etcd-1" "Running")]) ⟨[]⟩ ["etcd"]
        (some (GoMap.make.set "etcd-1" "Pending")) none).allPodsRunning.s.lastPodPhases =
      some (GoMap.make.set "etcd-1" "Running") ∧
    (statusController.mk (PodStore.ofList [("etcd-1", mkPod "etcd-1" "Running")]) ⟨[]⟩ ["etcd"]
        (some (GoMap.make.set "etcd-1" "Running")) none).allPodsRunning.s.lastPodPhases =
      some (GoMap.make.set "etcd-1" "Running") :=
  ⟨(C12_last_snapshot_overwritten
      (statusController.mk (PodStore.ofList [("etcd-1", mkPod "etcd-1" "Running")]) ⟨[]⟩
        ["etcd"] (some (GoMap.make.set "etcd-1" "Pending")) none)).1 _ rfl,
    (C12_last_snapshot_overwritten
      (statusController.mk (PodStore.ofList [("etcd-1", mkPod "etcd-1" "Running")]) ⟨[]⟩
        ["etcd"] (some (GoMap.make.set "etcd-1" "Running")) none)).1 _ rfl⟩

/-! ## Repeated evaluation -/

namespace statusController

/-- Method `allPodsRunning` on a controller that already remembers the snapshot `PodStatus`
returns: the controller stays as it is and nothing is reported. -/
theorem allPodsRunning_stable (t : statusController) (ps : GoMap corev1.PodPhase)
    (h : t.PodStatus.val = .ok ps) (hl : t.lastPodPhases = some ps) :
    t.allPodsRunning =
      ⟨ps.entries.all (fun kv => decide (kv.2 = corev1.PodRunning)), t, t.PodStatus.events⟩ := by
  rw [allPodsRunning_ok t ps h, hl]
  cases t
  simp only at hl
  subst hl
  simp [GoMap.deepEqual_self]

/-- Method `allNodesReady` on a controller that already remembers the snapshot `NodeStatus`
returns: the controller stays as it is and nothing is reported. -/
theorem allNodesReady_stable (t : statusController)
    (hl : t.lastNodeConditions = some (NodeStatus.loop t.nodeStore.List GoMap.make)) :
    t.allNodesReady =
      ⟨(NodeStatus.loop t.nodeStore.List GoMap.make).entries.all
          (fun kv => decide (kv.2.Status = corev1.ConditionTrue)), t, [Event.nodeStoreList]⟩ := by
  rw [allNodesReady_eq t, hl]
  cases t
  simp only at hl
  simp only [GoMap.deepEqual_self, Bool.not_true, Bool.false_eq_true, if_false]
  rw [← hl]

/-- Method `AllRunning` changes neither the stores nor the watched names. -/
theorem AllRunning_frame (s : statusController) :
    s.AllRunning.s.podStore = s.podStore ∧ s.AllRunning.s.nodeStore = s.nodeStore ∧
      s.AllRunning.s.watchPods = s.watchPods := by
  obtain ⟨h1, h2, h3, _⟩ := allPodsRunning_podStore s
  rw [AllRunning_s]
  split <;> exact ⟨h1, h2, h3⟩

/-- What `AllRunning` remembers: the pod snapshot when one was built, and the node snapshot
when pod readiness was true. -/
theorem AllRunning_last (s : statusController) :
    (∀ ps, s.PodStatus.val = .ok ps → s.AllRunning.s.lastPodPhases = some ps) ∧
    (∀ e, s.PodStatus.val = .error e →
      s.AllRunning.s.lastPodPhases = s.lastPodPhases ∧
        s.AllRunning.s.lastNodeConditions = s.lastNodeConditions) ∧
    (s.allPodsRunning.val = true →
      s.AllRunning.s.lastNodeConditions =
        some (NodeStatus.loop s.nodeStore.List GoMap.make)) ∧
    (s.allPodsRunning.val = false →
      s.AllRunning.s.lastNodeConditions = s.lastNodeConditions) := by
  refine ⟨?_, ?_, ?_, ?_⟩
  · intro ps hps
    rw [AllRunning_s, allPodsRunning_s_ok s ps hps]
    split <;> rfl
  · intro e he
    have hv := allPodsRunning_false_of_error s e he
    rw [AllRunning_s, hv, allPodsRunning_s_error s e he]
    simp
  · intro hp
    rw [AllRunning_s, hp]
    simp
  · intro hp
    rw [AllRunning_s, hp]
    simpa using (allPodsRunning_podStore s).2.2.2

/-- A second `AllRunning` on the controller the first one left returns the same result,
leaves the same controller and reports nothing. -/
theorem AllRunning_twice (s : statusController) :
    s.AllRunning.s.AllRunning.val = s.AllRunning.val ∧
      s.AllRunning.s.AllRunning.s = s.AllRunning.s ∧
      s.AllRunning.s.AllRunning.events.filter Event.isReport = [] := by
  obtain ⟨hps, hns, hwp⟩ := AllRunning_frame s
  obtain ⟨hval, hev⟩ := PodStatus_congr s.AllRunning.s s hps hwp
  obtain ⟨hl1, hl2, hl3, hl4⟩ := AllRunning_last s
  have hfilter : s.AllRunning.s.PodStatus.events.filter Event.isReport = [] :=
    PodStatus_events_filter _
  cases hs : s.PodStatus.val with
  | error e =>
    have hv := allPodsRunning_false_of_error s e hs
    have hv2 := allPodsRunning_false_of_error s.AllRunning.s e (hval.trans hs)
    have hall := AllRunning_of_pods_false s hv
    have hall2 := AllRunning_of_pods_false s.AllRunning.s hv2
    refine ⟨?_, ?_, ?_⟩
    · rw [hall2, hall]
    · rw [hall2, allPodsRunning_s_error _ e (hval.trans hs)]
    · rw [hall2, allPodsRunning_error _ e (hval.trans hs)]
      simp [List.filter_append, hfilter, Event.isReport]
  | ok ps =>
    have hst := allPodsRunning_stable s.AllRunning.s ps (hval.trans hs) (hl1 ps hs)
    have hpv : s.AllRunning.s.allPodsRunning.val = s.allPodsRunning.val := by
      rw [hst, allPodsRunning_val_ok s ps hs]
    cases hp : s.allPodsRunning.val with
    | false =>
      have hp2 : s.AllRunning.s.allPodsRunning.val = false := hpv.trans hp
      have hall := AllRunning_of_pods_false s hp
      rw [AllRunning_of_pods_false _ hp2]
      refine ⟨?_, ?_, ?_⟩
      · rw [hall]
      · rw [hst]
      · rw [hst]
        simpa using hfilter
    | true =>
      have hp2 : s.AllRunning.s.allPodsRunning.val = true := hpv.trans hp
      have hs2 : s.AllRunning.s.allPodsRunning.s = s.AllRunning.s := by rw [hst]
      have hln : s.AllRunning.s.lastNodeConditions =
          some (NodeStatus.loop s.AllRunning.s.nodeStore.List GoMap.make) := by
        rw [hns]
        exact hl3 hp
      have hns2 := allNodesReady_stable s.AllRunning.s hln
      rw [AllRunning_of_pods_true _ hp2, hs2, hns2]
      refine ⟨?_, rfl, ?_⟩
      · rw [AllRunning_val s, hp, hns]
        rfl
      · rw [hst]
        simp [List.filter_append, hfilter, Event.isReport]

end statusController

/-- C13: idempotence.  For every controller state and every pair of stores, a second call of
`AllRunning`, made on the controller the first call left and over the same stores, returns
the same boolean (and nil error), leaves the controller in the state the first call left,
and emits no report line. -/
theorem C13_AllRunning_idempotent (s : statusController) :
    s.AllRunning.s.podStore = s.podStore ∧ s.AllRunning.s.nodeStore = s.nodeStore ∧
    s.AllRunning.s.AllRunning.val = s.AllRunning.val ∧
    s.AllRunning.s.AllRunning.s = s.AllRunning.s ∧
    s.AllRunning.s.AllRunning.events.filter Event.isReport = [] := by
  obtain ⟨h1, h2, _⟩ := statusController.AllRunning_frame s
  obtain ⟨h3, h4, h5⟩ := statusController.AllRunning_twice s
  exact ⟨h1, h2, h3, h4, h5⟩

/-- Instance of C13: the first call sees the watched pod go from `Pending` to `Running` and
reports it, the second call reports nothing and returns the same result. -/
theorem C13_AllRunning_idempotent_witness :
    (statusController.mk (PodStore.ofList [("etcd-1", mkPod "etcd-1" "Running")])
        ⟨[mkNode "node1" [readyCondition "True" 0]]⟩ ["etcd"]
        (some (GoMap.make.set "etcd-1" "Pending")) none).AllRunning.events.filter
        Event.isReport = [Event.podReport "etcd-1" "Running"] ∧
    (statusController.mk (PodStore.ofList [("etcd-1", mkPod "etcd-1" "Running")])
        ⟨[mkNode "node1" [readyCondition "True" 0]]⟩ ["etcd"]
        (some (GoMap.make.set "etcd-1" "Pending")) none).AllRunning.val = (true, none) ∧
    (statusController.mk (PodStore.ofList [("etcd-1", mkPod "etcd-1" "Running")])
        ⟨[mkNode "node1" [readyCondition "True" 0]]⟩ ["etcd"]
        (some (GoMap.make.set "etcd-1" "Pending")) none).AllRunning.s.AllRunning.val =
      (true, none) ∧
    (statusController.mk (PodStore.ofList [("etcd-1", mkPod "etcd-1" "Running")])
        ⟨[mkNode "node1" [readyCondition "True" 0]]⟩ ["etcd"]
        (some (GoMap.make.set "etcd-1" "Pending")) none).AllRunning.s.AllRunning.events.filter
        Event.isReport = [] := by
  have h := C13_AllRunning_idempotent
    (statusController.mk (PodStore.ofList [("etcd-1", mkPod "etcd-1" "Running")])
      ⟨[mkNode "node1" [readyCondition "True" 0]]⟩ ["etcd"]
      (some (GoMap.make.set "etcd-1" "Pending")) none)
  have hv : (statusController.mk (PodStore.ofList [("etcd-1", mkPod "etcd-1" "Running")])
      ⟨[mkNode "node1" [readyCondition "True" 0]]⟩ ["etcd"]
      (some (GoMap.make.set "etcd-1" "Pending")) none).AllRunning.val = (true, none) := by
    decide
  exact ⟨by decide, hv, h.2.2.1.trans hv, h.2.2.2.2⟩

/-- C14, as stated, fails when the pod snapshot cannot be built: two controllers with the
same watched names over the same failing pod store, one remembering nothing and one
remembering a snapshot, get the same boolean from `AllRunning` and each keeps the
`lastPodPhases` it had, so the two still differ after the call. -/
theorem C14_remembered_snapshots_counterexample :
    (newController (PodStore.failing [] "store closed") ⟨[]⟩ ["etcd"]).AllRunning.val =
      (false, none) ∧
    (statusController.mk (PodStore.failing [] "store closed") ⟨[]⟩ ["etcd"]
      (some (GoMap.make.set "etcd" "Running")) none).AllRunning.val = (false, none) ∧
    (newController (PodStore.failing [] "store closed") ⟨[]⟩
      ["etcd"]).AllRunning.s.lastPodPhases = none ∧
    (statusController.mk (PodStore.failing [] "store closed") ⟨[]⟩ ["etcd"]
      (some (GoMap.make.set "etcd" "Running")) none).AllRunning.s.lastPodPhases =
      some (GoMap.make.set "etcd" "Running") ∧
    (newController (PodStore.failing [] "store closed") ⟨[]⟩
      ["etcd"]).AllRunning.s.lastPodPhases ≠
    (statusController.mk (PodStore.failing [] "store closed") ⟨[]⟩ ["etcd"]
      (some (GoMap.make.set "etcd" "Running")) none).AllRunning.s.lastPodPhases := by
  refine ⟨by decide, by decide, rfl, rfl, ?_⟩
  intro h
  exact Option.noConfusion h

/-- C14, amended: the remembered snapshots affect reporting only.  For two controller states
with the same stores and watched names, `AllRunning` returns the same boolean; when the pod
snapshot is built without error it leaves both with the same `lastPodPhases`, and when node
readiness is evaluated with the same `lastNodeConditions`.  When `PodStatus` fails, each
controller keeps the `lastPodPhases` and `lastNodeConditions` it had. -/
theorem C14_remembered_snapshots (s1 s2 : statusController)
    (hp : s1.podStore = s2.podStore) (hn : s1.nodeStore = s2.nodeStore)
    (hw : s1.watchPods = s2.watchPods) :
    s1.AllRunning.val = s2.AllRunning.val ∧
    s1.allPodsRunning.val = s2.allPodsRunning.val ∧
    (∀ ps, s1.PodStatus.val = .ok ps →
      s1.AllRunning.s.lastPodPhases = some ps ∧ s2.AllRunning.s.lastPodPhases = some ps) ∧
    (s1.allPodsRunning.val = true →
      s1.AllRunning.s.lastNodeConditions = s2.AllRunning.s.lastNodeConditions) ∧
    (∀ e, s1.PodStatus.val = .error e →
      s1.AllRunning.s.lastPodPhases = s1.lastPodPhases ∧
      s2.AllRunning.s.lastPodPhases = s2.lastPodPhases ∧
      s1.AllRunning.s.lastNodeConditions = s1.lastNodeConditions ∧
      s2.AllRunning.s.lastNodeConditions = s2.lastNodeConditions) := by
  obtain ⟨hval, _⟩ := statusController.PodStatus_congr s1 s2 hp hw
  have hpv : s1.allPodsRunning.val = s2.allPodsRunning.val := by
    cases hs : s1.PodStatus.val with
    | error e =>
      rw [statusController.allPodsRunning_false_of_error s1 e hs,
        statusController.allPodsRunning_false_of_error s2 e (hval.symm.trans hs)]
    | ok ps =>
      rw [statusController.allPodsRunning_val_ok s1 ps hs,
        statusController.allPodsRunning_val_ok s2 ps (hval.symm.trans hs)]
  refine ⟨?_, hpv, ?_, ?_, ?_⟩
  · rw [statusController.AllRunning_val, statusController.AllRunning_val s2, hpv, hn]
  · intro ps hs
    exact ⟨(statusController.AllRunning_last s1).1 ps hs,
      (statusController.AllRunning_last s2).1 ps (hval.symm.trans hs)⟩
  · intro h1
    rw [(statusController.AllRunning_last s1).2.2.1 h1,
      (statusController.AllRunning_last s2).2.2.1 (hpv.symm.trans h1), hn]
  · intro e hs
    obtain ⟨a1, a2⟩ := (statusController.AllRunning_last s1).2.1 e hs
    obtain ⟨b1, b2⟩ := (statusController.AllRunning_last s2).2.1 e (hval.symm.trans hs)
    exact ⟨a1, b1, a2, b2⟩

/-- Witness of C14, amended: one controller remembers nothing, the other remembers other
snapshots; after `AllRunning` both remember the same pod snapshot. -/
theorem C14_remembered_snapshots_witness :
    (newController (PodStore.ofList [("etcd-1", mkPod "etcd-1" "Running")])
        ⟨[mkNode "node1" [readyCondition "True" 0]]⟩ ["etcd"]).AllRunning.val =
      (statusController.mk (PodStore.ofList [("etcd-1", mkPod "etcd-1" "Running")])
        ⟨[mkNode "node1" [readyCondition "True" 0]]⟩ ["etcd"]
        (some (GoMap.make.set "etcd-1" "Pending"))
        (some (GoMap.make.set "node1" (readyCondition "False" 0)))).AllRunning.val ∧
    (newController (PodStore.ofList [("etcd-1", mkPod "etcd-1" "Running")])
        ⟨[mkNode "node1" [readyCondition "True" 0]]⟩ ["etcd"]).AllRunning.s.lastPodPhases =
      some (GoMap.make.set "etcd-1" "Running") ∧
    (statusController.mk (PodStore.ofList [("etcd-1", mkPod "etcd-1" "Running")])
        ⟨[mkNode "node1" [readyCondition "True" 0]]⟩ ["etcd"]
        (some (GoMap.make.set "etcd-1" "Pending"))
        (some (GoMap.make.set "node1" (readyCondition "False" 0)))).AllRunning.s.lastPodPhases =
      some (GoMap.make.set "etcd-1" "Running") := by
  have h := C14_remembered_snapshots
    (newController (PodStore.ofList [("etcd-1", mkPod "etcd-1" "Running")])
      ⟨[mkNode "node1" [readyCondition "True" 0]]⟩ ["etcd"])
    (statusController.mk (PodStore.ofList [("etcd-1", mkPod "etcd-1" "Running")])
      ⟨[mkNode "node1" [readyCondition "True" 0]]⟩ ["etcd"]
      (some (GoMap.make.set "etcd-1" "Pending"))
      (some (GoMap.make.set "node1" (readyCondition "False" 0)))) rfl rfl rfl
  obtain ⟨h1, h2⟩ := h.2.2.1 (GoMap.make.set "etcd-1" "Running") rfl
  exact ⟨h.1, h1, h2⟩

/-- C15: the list of watched names is fixed.  `PodStatus` and `AllRunning` leave `watchPods`
unchanged for every store, also when a watched name is re-bound to a resolved key; the
re-binding is local to one evaluation, so that the next evaluation, over whatever pod
store, resolves from the original watched names.  In the example `"etcd"` resolves to
`"etcd-1"` in the first evaluation and to `"etcd-2"` in the next one, over a store whose
key set has changed. -/
theorem C15_watchPods_fixed (s : statusController) :
    s.PodStatus.s.watchPods = s.watchPods ∧
    s.allPodsRunning.s.watchPods = s.watchPods ∧
    s.AllRunning.s.watchPods = s.watchPods ∧
    (∀ podStore : PodStore,
      ({ s.AllRunning.s with podStore := podStore } : statusController).PodStatus.val =
        ({ s with podStore := podStore } : statusController).PodStatus.val) ∧
    ((newController (PodStore.ofList [("etcd-1", mkPod "etcd-1" "Running")]) ⟨[]⟩
        ["etcd"]).AllRunning.s.watchPods = ["etcd"] ∧
      (∃ ps, (newController (PodStore.ofList [("etcd-1", mkPod "etcd-1" "Running")]) ⟨[]⟩
          ["etcd"]).PodStatus.val = .ok ps ∧ ps.entries = [("etcd-1", "Running")]) ∧
      ∃ ps, ({ (newController (PodStore.ofList [("etcd-1", mkPod "etcd-1" "Running")]) ⟨[]⟩
            ["etcd"]).AllRunning.s with
          podStore := PodStore.ofList [("etcd-2", mkPod "etcd-2" "Pending")] } :
            statusController).PodStatus.val = .ok ps ∧
        ps.entries = [("etcd-2", "Pending")]) := by
  refine ⟨rfl, (statusController.allPodsRunning_podStore s).2.2.1,
    (statusController.AllRunning_frame s).2.2, ?_, by decide, ⟨_, rfl, rfl⟩, ⟨_, rfl, rfl⟩⟩
  intro podStore
  exact (statusController.PodStatus_congr
    ({ s.AllRunning.s with podStore := podStore } : statusController)
    ({ s with podStore := podStore } : statusController) rfl
    (statusController.AllRunning_frame s).2.2).1

/-! ## Waiting for the pods -/

/-- Function `NewStatusController` fails exactly when `ClientConfig` fails or `NewForConfig`
fails, with the error of the failing call. -/
theorem NewStatusController_error_iff (env : WaitEnv) (pods : List String) (e : Error) :
    NewStatusController env pods = .error e ↔
      env.ClientConfig = .error e ∨
        ∃ config, env.ClientConfig = .ok config ∧ env.NewForConfig config = .error e := by
  unfold NewStatusController
  cases hc : env.ClientConfig with
  | error err => simp
  | ok config =>
    cases hn : env.NewForConfig config with
    | error err => simp [hn]
    | ok client => simp [hn]

/-- C16: with the poll taken as one step that succeeds or returns an error,
`WaitUntilPodsRunning` returns an error in exactly two cases.  When building the controller
fails, that error is returned unchanged and nothing is started: neither the watchers nor the
poll.  When the poll returns an error, an error wrapping it is returned.  In every other case
nil is returned and the message of success is emitted exactly once; it is not emitted when
an error is returned. -/
theorem C16_WaitUntilPodsRunning (env : WaitEnv) (pods : List String) :
    (∀ e, NewStatusController env pods = .error e →
      WaitUntilPodsRunning env pods = (some e, [])) ∧
    (∀ sc e, NewStatusController env pods = .ok sc → env.Poll sc.client sc.watchPods = some e →
      WaitUntilPodsRunning env pods =
        (some (pollError e), [WaitEvent.run, WaitEvent.poll, WaitEvent.cancel])) ∧
    (∀ sc, NewStatusController env pods = .ok sc → env.Poll sc.client sc.watchPods = none →
      (WaitUntilPodsRunning env pods).1 = none ∧
        (WaitUntilPodsRunning env pods).2.count (WaitEvent.userOutput successMessage) = 1) ∧
    ((WaitUntilPodsRunning env pods).1 ≠ none ↔
      (∃ e, NewStatusController env pods = .error e) ∨
        ∃ sc e, NewStatusController env pods = .ok sc ∧
          env.Poll sc.client sc.watchPods = some e) ∧
    ((WaitUntilPodsRunning env pods).1 ≠ none →
      ∀ ev ∈ (WaitUntilPodsRunning env pods).2, ∀ msg, ev ≠ WaitEvent.userOutput msg) := by
  unfold WaitUntilPodsRunning
  cases hnew : NewStatusController env pods with
  | error err => simp
  | ok sc =>
    cases hpoll : env.Poll sc.client sc.watchPods with
    | some err =>
      simp only [hpoll]
      refine ⟨fun e h => Except.noConfusion h, ?_, ?_, ?_, ?_⟩
      · intro sc2 e h2 hp2
        cases h2
        rw [hpoll] at hp2
        cases hp2
        rfl
      · intro sc2 h2 hp2
        cases h2
        rw [hpoll] at hp2
        exact Option.noConfusion hp2
      · constructor
        · intro _
          exact Or.inr ⟨sc, err, rfl, hpoll⟩
        · intro _ h
          exact Option.noConfusion h
      · intro _ ev hev msg heq
        subst heq
        simp at hev
    | none =>
      simp only [hpoll]
      refine ⟨fun e h => Except.noConfusion h, ?_, ?_, ?_, ?_⟩
      · intro sc2 e h2 hp2
        cases h2
        rw [hpoll] at hp2
        exact Option.noConfusion hp2
      · intro sc2 _ _
        constructor <;> trivial
      · constructor
        · intro h
          exact absurd rfl h
        · rintro (⟨e, h⟩ | ⟨sc2, e, h2, hp2⟩)
          · exact Except.noConfusion h
          · cases h2
            rw [hpoll] at hp2
            exact Option.noConfusion hp2
      · intro h
        exact absurd rfl h

/-- Instance of C16: the client configuration cannot be built; the client cannot be built;
the poll times out; the poll succeeds. -/
theorem C16_WaitUntilPodsRunning_witness :
    WaitUntilPodsRunning ⟨.error "no kubeconfig", fun _ => .ok "client", fun _ _ => none⟩
        ["etcd"] = (some "no kubeconfig", []) ∧
    WaitUntilPodsRunning ⟨.ok "config", fun _ => .error "bad host", fun _ _ => none⟩
        ["etcd"] = (some "bad host", []) ∧
    WaitUntilPodsRunning
        ⟨.ok "config", fun _ => .ok "client", fun _ _ => some "timed out waiting for the condition"⟩
        ["etcd"] =
      (some "error while checking pod status: timed out waiting for the condition",
        [WaitEvent.run, WaitEvent.poll, WaitEvent.cancel]) ∧
    (WaitUntilPodsRunning ⟨.ok "config", fun _ => .ok "client", fun _ _ => none⟩
        ["etcd"]).1 = none ∧
    (WaitUntilPodsRunning ⟨.ok "config", fun _ => .ok "client", fun _ _ => none⟩
        ["etcd"]).2.count (WaitEvent.userOutput successMessage) = 1 :=
  ⟨(C16_WaitUntilPodsRunning
      ⟨.error "no kubeconfig", fun _ => .ok "client", fun _ _ => none⟩ ["etcd"]).1 _ rfl,
    (C16_WaitUntilPodsRunning
      ⟨.ok "config", fun _ => .error "bad host", fun _ _ => none⟩ ["etcd"]).1 _ rfl,
    (C16_WaitUntilPodsRunning
      ⟨.ok "config", fun _ => .ok "client",
        fun _ _ => some "timed out waiting for the condition"⟩ ["etcd"]).2.1
      ⟨"client", ["etcd"]⟩ _ rfl rfl,
    ((C16_WaitUntilPodsRunning
      ⟨.ok "config", fun _ => .ok "client", fun _ _ => none⟩ ["etcd"]).2.2.1
      ⟨"client", ["etcd"]⟩ rfl rfl).1,
    ((C16_WaitUntilPodsRunning
      ⟨.ok "config", fun _ => .ok "client", fun _ _ => none⟩ ["etcd"]).2.2.1
      ⟨"client", ["etcd"]⟩ rfl rfl).2⟩

/-- C17: prefix resolution depends on the order of `ListKeys()`.  Two pod stores hold the same
two pods, `"etcd-a"` running and `"etcd-b"` pending, and differ only in the order in which
they list the two keys; both keys have the watched name `"etcd"` as a prefix.  `PodStatus`
returns `{"etcd-a": "Running"}` over the one and `{"etcd-b": "Pending"}` over the other,
without an error, and `AllRunning` returns true over the one and false over the other. -/
theorem C17_resolution_order_dependent :
    (PodStore.ofList [("etcd-a", mkPod "etcd-a" "Running"),
        ("etcd-b", mkPod "etcd-b" "Pending")]).ListKeys.Perm
      (PodStore.ofList [("etcd-b", mkPod "etcd-b" "Pending"),
        ("etcd-a", mkPod "etcd-a" "Running")]).ListKeys ∧
    (∀ key,
      (PodStore.ofList [("etcd-a", mkPod "etcd-a" "Running"),
          ("etcd-b", mkPod "etcd-b" "Pending")]).GetByKey key =
        (PodStore.ofList [("etcd-b", mkPod "etcd-b" "Pending"),
          ("etcd-a", mkPod "etcd-a" "Running")]).GetByKey key) ∧
    strings.HasPrefix "etcd-a" "etcd" = true ∧ strings.HasPrefix "etcd-b" "etcd" = true ∧
    (∃ ps, (newController (PodStore.ofList [("etcd-a", mkPod "etcd-a" "Running"),
          ("etcd-b", mkPod "etcd-b" "Pending")]) ⟨[]⟩ ["etcd"]).PodStatus.val = .ok ps ∧
        ps.entries = [("etcd-a", "Running")]) ∧
    (∃ ps, (newController (PodStore.ofList [("etcd-b", mkPod "etcd-b" "Pending"),
          ("etcd-a", mkPod "etcd-a" "Running")]) ⟨[]⟩ ["etcd"]).PodStatus.val = .ok ps ∧
        ps.entries = [("etcd-b", "Pending")]) ∧
    (newController (PodStore.ofList [("etcd-a", mkPod "etcd-a" "Running"),
        ("etcd-b", mkPod "etcd-b" "Pending")]) ⟨[]⟩ ["etcd"]).AllRunning.val = (true, none) ∧
    (newController (PodStore.ofList [("etcd-b", mkPod "etcd-b" "Pending"),
        ("etcd-a", mkPod "etcd-a" "Running")]) ⟨[]⟩ ["etcd"]).AllRunning.val =
      (false, none) := by
  refine ⟨List.Perm.swap _ _ _, ?_, by decide, by decide, ⟨_, rfl, rfl⟩, ⟨_, rfl, rfl⟩,
    by decide, by decide⟩
  intro key
  simp only [PodStore.ofList, assocGet]
  by_cases h1 : "etcd-a" = key
  · have h2 : ¬ "etcd-b" = key := by
      rw [← h1]
      decide
    simp [h1, h2]
  · by_cases h2 : "etcd-b" = key
    · simp [h1, h2]
    · simp [h1, h2]

/-! ## Node conditions -/

/-- A test of the values gives the same answer on two maps whose bindings agree under the
function the test looks through. -/
theorem GoMap.all_congr {V W : Type} (m1 m2 : GoMap V) (f : V → W) (t : W → Bool)
    (h : ∀ k, (m1.get? k).map f = (m2.get? k).map f) :
    m1.entries.all (fun kv => t (f kv.2)) = m2.entries.all (fun kv => t (f kv.2)) := by
  have key : ∀ (a b : GoMap V), (∀ k, (a.get? k).map f = (b.get? k).map f) →
      a.entries.all (fun kv => t (f kv.2)) = true →
        b.entries.all (fun kv => t (f kv.2)) = true := by
    intro a b hab ha
    rw [List.all_eq_true] at ha ⊢
    intro kv hkv
    have hb := (GoMap.mem_entries_iff b kv.1 kv.2).mp hkv
    have h1 := hab kv.1
    rw [hb] at h1
    cases hga : a.get? kv.1 with
    | none =>
      rw [hga] at h1
      exact Option.noConfusion h1
    | some v =>
      rw [hga] at h1
      simp only [Option.map_some', Option.some.injEq] at h1
      have := ha (kv.1, v) ((GoMap.mem_entries_iff a kv.1 v).mpr hga)
      simp only at this
      rw [← h1]
      exact this
  cases h1 : m1.entries.all (fun kv => t (f kv.2)) with
  | true => exact (key m1 m2 h h1).symm
  | false =>
    cases h2 : m2.entries.all (fun kv => t (f kv.2)) with
    | false => rfl
    | true =>
      have := key m2 m1 (fun k => (h k).symm) h2
      rw [h1] at this
      exact Bool.noConfusion this

/-- C18: node change detection compares whole `Ready` conditions.  Let the remembered node
snapshot `S1` and the new one `S2` bind the same node names to conditions of the same status,
and let them differ in the condition of some node (in its last heartbeat time, say).  Then
`allNodesReady` emits one report line for each entry of `S2`, and returns the boolean that
the snapshot `S1` gives. -/
theorem C18_node_change_detection (s : statusController)
    (S1 S2 : GoMap corev1.NodeCondition)
    (hlast : s.lastNodeConditions = some S1) (hval : s.NodeStatus.val = .ok S2)
    (hstatus : ∀ k, (S1.get? k).map corev1.NodeCondition.Status =
      (S2.get? k).map corev1.NodeCondition.Status)
    (hdiff : ∃ k, S1.get? k ≠ S2.get? k) :
    s.allNodesReady.events.filter Event.isReport =
        S2.entries.map (fun kv => Event.nodeReport kv.1 kv.2) ∧
      (s.allNodesReady.events.filter Event.isReport).length = S2.len ∧
      s.allNodesReady.val =
        S1.entries.all (fun kv => decide (kv.2.Status = corev1.ConditionTrue)) := by
  rw [statusController.NodeStatus_val] at hval
  cases hval
  have hne : ¬ (statusController.NodeStatus.loop s.nodeStore.List GoMap.make).deepEqual S1
      = true := by
    intro hd
    obtain ⟨k, hk⟩ := hdiff
    exact hk ((GoMap.deepEqual_iff _ S1).mp hd k).symm
  have hrep : s.allNodesReady.events.filter Event.isReport =
      (statusController.NodeStatus.loop s.nodeStore.List GoMap.make).entries.map
        (fun kv => Event.nodeReport kv.1 kv.2) := by
    rw [statusController.allNodesReady_reports s, hlast]
    simp [hne]
  refine ⟨hrep, ?_, ?_⟩
  · rw [hrep, List.length_map]
    rfl
  · rw [statusController.allNodesReady_eq]
    exact (GoMap.all_congr S1 _ corev1.NodeCondition.Status
      (fun st => decide (st = corev1.ConditionTrue)) hstatus).symm

/-- Witness of C18: the node is ready in both snapshots, only the time of its last heartbeat
has moved from 1 to 2; one line is reported and the result stays true. -/
theorem C18_node_change_detection_witness :
    (∃ k, (GoMap.make.set "node1" (readyCondition "True" 1)).get? k ≠
      (GoMap.make.set "node1" (readyCondition "True" 2)).get? k) ∧
    (statusController.mk (PodStore.ofList []) ⟨[mkNode "node1" [readyCondition "True" 2]]⟩ []
        none (some (GoMap.make.set "node1" (readyCondition "True" 1)))).allNodesReady.events.filter
        Event.isReport = [Event.nodeReport "node1" (readyCondition "True" 2)] ∧
    (statusController.mk (PodStore.ofList []) ⟨[mkNode "node1" [readyCondition "True" 2]]⟩ []
        none (some (GoMap.make.set "node1" (readyCondition "True" 1)))).allNodesReady.val =
      true := by
  have hdiff : ∃ k, (GoMap.make.set "node1" (readyCondition "True" 1)).get? k ≠
      (GoMap.make.set "node1" (readyCondition "True" 2)).get? k := ⟨"node1", by decide⟩
  have h := C18_node_change_detection
    (statusController.mk (PodStore.ofList []) ⟨[mkNode "node1" [readyCondition "True" 2]]⟩ []
      none (some (GoMap.make.set "node1" (readyCondition "True" 1))))
    (GoMap.make.set "node1" (readyCondition "True" 1))
    (GoMap.make.set "node1" (readyCondition "True" 2)) rfl rfl
    (by
      intro k
      simp only [GoMap.get?_set, GoMap.get?_make]
      by_cases hk : "node1" = k <;> simp [hk, readyCondition])
    hdiff
  exact ⟨hdiff, h.1, h.2.2.trans (by decide)⟩

/-- C19: `NodeStatus` returns a nil error for every node store, so that `allNodesReady` never
takes its error branch: it logs nothing, always builds the node snapshot and overwrites
`lastNodeConditions` with it, and so does `AllRunning` whenever pod readiness is true. -/
theorem C19_NodeStatus_no_error (s : statusController) :
    (∀ e, s.NodeStatus.val ≠ .error e) ∧
    (∃ ns, s.NodeStatus.val = .ok ns ∧
      s.allNodesReady.s.lastNodeConditions = some ns ∧
      (s.allPodsRunning.val = true → s.AllRunning.s.lastNodeConditions = some ns)) ∧
    (∀ ev ∈ s.allNodesReady.events, ∀ format e, ev ≠ Event.glogInfo format e) ∧
    (∀ ev ∈ s.AllRunning.events, ∀ e,
      ev ≠ Event.glogInfo "Error retrieving node conditions: %v" e) := by
  refine ⟨?_, ?_, ?_, ?_⟩
  · intro e h
    rw [statusController.NodeStatus_val] at h
    exact Except.noConfusion h
  · refine ⟨_, statusController.NodeStatus_val s, ?_, ?_⟩
    · rw [statusController.allNodesReady_eq]
    · exact (statusController.AllRunning_last s).2.2.1
  · intro ev hev format e heq
    subst heq
    rw [statusController.allNodesReady_eq] at hev
    simp only [List.mem_cons, reduceCtorEq, false_or] at hev
    split at hev
    · obtain ⟨kv, _, h⟩ := List.mem_map.mp hev
      exact Event.noConfusion h
    · simp at hev
  · intro ev hev e heq
    subst heq
    cases hp : s.allPodsRunning.val with
    | false =>
      rw [statusController.AllRunning_of_pods_false s hp, List.append_nil] at hev
      cases hs : s.PodStatus.val with
      | error e2 =>
        rw [statusController.allPodsRunning_error s e2 hs] at hev
        rcases List.mem_append.mp hev with h1 | h1
        · rcases statusController.PodStatus_events_reads s _ h1 with h2 | ⟨key, h2⟩ <;>
            exact Event.noConfusion h2
        · have h3 := List.mem_singleton.mp h1
          simp only [Event.glogInfo.injEq] at h3
          exact absurd h3.1 (by decide)
      | ok ps =>
        rw [statusController.allPodsRunning_ok s ps hs] at hev
        rcases List.mem_append.mp hev with h1 | h1
        · rcases statusController.PodStatus_events_reads s _ h1 with h2 | ⟨key, h2⟩ <;>
            exact Event.noConfusion h2
        · split at h1
          · obtain ⟨kv, _, h⟩ := List.mem_map.mp h1
            exact Event.noConfusion h
          · simp at h1
    | true =>
      rw [statusController.AllRunning_of_pods_true s hp] at hev
      rcases List.mem_append.mp hev with h1 | h1
      · cases hs : s.PodStatus.val with
        | error e2 =>
          rw [statusController.allPodsRunning_false_of_error s e2 hs] at hp
          exact Bool.noConfusion hp
        | ok ps =>
          rw [statusController.allPodsRunning_ok s ps hs] at h1
          rcases List.mem_append.mp h1 with h2 | h2
          · rcases statusController.PodStatus_events_reads s _ h2 with h3 | ⟨key, h3⟩ <;>
              exact Event.noConfusion h3
          · split at h2
            · obtain ⟨kv, _, h⟩ := List.mem_map.mp h2
              exact Event.noConfusion h
            · simp at h2
      · rw [statusController.allNodesReady_eq] at h1
        simp only [List.mem_cons, reduceCtorEq, false_or] at h1
        split at h1
        · obtain ⟨kv, _, h⟩ := List.mem_map.mp h1
          exact Event.noConfusion h
        · simp at h1

end bootkube

